import Mathlib

/-!
Verification of the core components of the `draw` repository: the
`FloodFillEngine` (stack-based flood fill over an RGBA byte buffer with
colour tolerance and bounding-box tracking) and the `HistoryManager`
(memory-bounded undo/redo state list).  The definitions below are a direct
shallow embedding of the JavaScript source in `src/js/app.js` (and the
`forceCleanup` method of the `HistoryManager` variant in the repository's
other source file).  JavaScript `while` loops are embedded with an explicit
fuel argument; a result of `none` means the fuel was exhausted while the
loop guard still held.
-/

namespace Draw

/-- An RGBA colour record `{r, g, b, a}`; the buffer stores 8-bit channels
(0-255), written values are clamped as a `Uint8ClampedArray` does. -/
@[ext]
structure Color where
  r : Nat
  g : Nat
  b : Nat
  a : Nat
deriving DecidableEq, Repr

/-- A pixel coordinate `{x, y}`.  Coordinates may be negative (neighbour
pushes are unconditional in the source), so both are integers. -/
@[ext]
structure Pixel where
  x : Int
  y : Int
deriving DecidableEq, Repr

/-- The bounding box record `{minX, maxX, minY, maxY}` tracked by a fill. -/
@[ext]
structure BoundingBox where
  minX : Int
  maxX : Int
  minY : Int
  maxY : Int
deriving DecidableEq, Repr

/-- The raw RGBA byte array of an `ImageData` (`Uint8ClampedArray`). -/
abbrev ImageBytes := List Nat

/-- `DrawingConfig.DEFAULTS.NEIGHBOUR_OFFSETS`: right, left, down, up. -/
def NEIGHBOUR_OFFSETS : List Pixel :=
  [⟨1, 0⟩, ⟨-1, 0⟩, ⟨0, 1⟩, ⟨0, -1⟩]

/-- `DrawingConfig.DEFAULTS.HISTORY_MAX_STATES`. -/
def HISTORY_MAX_STATES : Nat := 50

/-- `DrawingConfig.DEFAULTS.HISTORY_MAX_MEMORY_MB`. -/
def HISTORY_MAX_MEMORY_MB : Nat := 500

/-- `DrawingConfig.DEFAULTS.BYTES_PER_MB`. -/
def BYTES_PER_MB : Nat := 1024 * 1024

/-- Writing a byte to a `Uint8ClampedArray` clamps it to [0, 255]. -/
def clampByte (v : Nat) : Nat := min v 255

/-- Channel-wise clamping of a colour as storing it in the buffer does. -/
def clampColor (c : Color) : Color :=
  ⟨clampByte c.r, clampByte c.g, clampByte c.b, clampByte c.a⟩

namespace FloodFillEngine

/-- `FloodFillEngine.colorsEqual`: equality within tolerance, with the
special transparent-pixel rules. -/
def colorsEqual (color1 color2 : Color) (tolerance : Nat) : Bool :=
  -- If both colours are fully transparent, consider them equal regardless of RGB
  if color1.a == 0 && color2.a == 0 then
    true
  -- If one is transparent and the other isn't, they're different
  else if (color1.a == 0) != (color2.a == 0) then
    false
  -- For non-transparent pixels, check all channels with tolerance
  else
    decide (((color1.r : Int) - color2.r).natAbs ≤ tolerance) &&
    decide (((color1.g : Int) - color2.g).natAbs ≤ tolerance) &&
    decide (((color1.b : Int) - color2.b).natAbs ≤ tolerance) &&
    decide (((color1.a : Int) - color2.a).natAbs ≤ tolerance)

/-- `FloodFillEngine.isPixelOutOfBounds`. -/
def isPixelOutOfBounds (pixel : Pixel) (width height : Nat) : Bool :=
  decide (pixel.x < 0) || decide (pixel.x ≥ (width : Int)) ||
  decide (pixel.y < 0) || decide (pixel.y ≥ (height : Int))

/-- `FloodFillEngine.getPixelColorFromImageData`: reads the four bytes at
`(y * width + x) * 4`.  The source only calls this after the bounds check,
so the index is a non-negative integer there. -/
def getPixelColorFromImageData (pixel : Pixel) (data : ImageBytes) (width : Nat) : Color :=
  let index := ((pixel.y * width + pixel.x) * 4).toNat
  { r := data.getD index 0
    g := data.getD (index + 1) 0
    b := data.getD (index + 2) 0
    a := data.getD (index + 3) 0 }

/-- `FloodFillEngine.setPixelColor`: writes the four bytes at
`(y * width + x) * 4` (clamped, as the target array is a
`Uint8ClampedArray`). -/
def setPixelColor (pixel : Pixel) (color : Color) (data : ImageBytes) (width : Nat) : ImageBytes :=
  let index := ((pixel.y * width + pixel.x) * 4).toNat
  ((((data.set index (clampByte color.r)).set (index + 1) (clampByte color.g)).set
      (index + 2) (clampByte color.b)).set (index + 3) (clampByte color.a))

/-- `FloodFillEngine.shouldFillPixel`: in bounds and matching the target
colour within tolerance. -/
def shouldFillPixel (pixel : Pixel) (width height : Nat) (data : ImageBytes)
    (targetColor : Color) (tolerance : Nat) : Bool :=
  if isPixelOutOfBounds pixel width height then
    false
  else
    colorsEqual (getPixelColorFromImageData pixel data width) targetColor tolerance

/-- `FloodFillEngine.fillPixel`. -/
def fillPixel (pixel : Pixel) (data : ImageBytes) (width : Nat) (fillColor : Color) : ImageBytes :=
  setPixelColor pixel fillColor data width

/-- `FloodFillEngine.addNeighboringPixelsToStack`: pushes the four
4-connected neighbours (in offset order right, left, down, up) onto the
stack.  The head of the list is the top of the stack. -/
def addNeighboringPixelsToStack (pixel : Pixel) (stack : List Pixel) : List Pixel :=
  NEIGHBOUR_OFFSETS.foldl (fun s offset => ⟨pixel.x + offset.x, pixel.y + offset.y⟩ :: s) stack

/-- Extension of the bounding box by a newly filled pixel (the four
`Math.min`/`Math.max` updates in `processFillStack`). -/
def extendBoundingBox (boundingBox : BoundingBox) (pixel : Pixel) : BoundingBox :=
  { minX := min boundingBox.minX pixel.x
    maxX := max boundingBox.maxX pixel.x
    minY := min boundingBox.minY pixel.y
    maxY := max boundingBox.maxY pixel.y }

/-- `FloodFillEngine.processFillStack`: the `while (stack.length > 0)` loop,
embedded with fuel.  `none` means the fuel ran out with a non-empty stack. -/
def processFillStack (fuel : Nat) (stack : List Pixel) (data : ImageBytes)
    (width height : Nat) (targetColor fillColor : Color) (tolerance : Nat)
    (boundingBox : BoundingBox) : Option (ImageBytes × BoundingBox) :=
  match fuel, stack with
  | _, [] => some (data, boundingBox)
  | 0, _ :: _ => none
  | fuel + 1, currentPixel :: rest =>
    if shouldFillPixel currentPixel width height data targetColor tolerance then
      processFillStack fuel (addNeighboringPixelsToStack currentPixel rest)
        (fillPixel currentPixel data width fillColor) width height
        targetColor fillColor tolerance (extendBoundingBox boundingBox currentPixel)
    else
      processFillStack fuel rest data width height targetColor fillColor tolerance boundingBox

/-- `FloodFillEngine.createFillArea`: seeds the stack and processes it. -/
def createFillArea (fuel : Nat) (startX startY : Int) (targetColor fillColor : Color)
    (imageData : ImageBytes) (width height : Nat) (tolerance : Nat)
    (boundingBox : BoundingBox) : Option (ImageBytes × BoundingBox) :=
  processFillStack fuel [⟨startX, startY⟩] imageData width height
    targetColor fillColor tolerance boundingBox

/-- `FloodFillEngine.performFloodFill`: initialises the bounding box to the
seed point and runs the fill.  `some (data, bb)` is the
`{imageData, boundingBox}` result; `none` means the loop had not finished
within `fuel` iterations. -/
def performFloodFill (fuel : Nat) (imageData : ImageBytes) (startX startY : Int)
    (targetColor fillColor : Color) (canvasWidth canvasHeight : Nat)
    (tolerance : Nat) : Option (ImageBytes × BoundingBox) :=
  createFillArea fuel startX startY targetColor fillColor imageData
    canvasWidth canvasHeight tolerance
    { minX := startX, maxX := startX, minY := startY, maxY := startY }

/-- Propositional form of "the pixel is inside the canvas rectangle". -/
def inBoundsP (p : Pixel) (w h : Nat) : Prop :=
  0 ≤ p.x ∧ p.x < (w : Int) ∧ 0 ≤ p.y ∧ p.y < (h : Int)

instance (p : Pixel) (w h : Nat) : Decidable (inBoundsP p w h) := by
  unfold inBoundsP; infer_instance

lemma isPixelOutOfBounds_eq_false_iff {p : Pixel} {w h : Nat} :
    isPixelOutOfBounds p w h = false ↔ inBoundsP p w h := by
  simp [isPixelOutOfBounds, inBoundsP]
  omega

lemma isPixelOutOfBounds_eq_true_iff {p : Pixel} {w h : Nat} :
    isPixelOutOfBounds p w h = true ↔ ¬ inBoundsP p w h := by
  rw [← isPixelOutOfBounds_eq_false_iff]
  cases hb : isPixelOutOfBounds p w h <;> simp

/-- The byte index of a pixel, as a natural number. -/
lemma pixelIndex_eq {p : Pixel} {w h : Nat} (hp : inBoundsP p w h) :
    ((p.y * w + p.x) * 4).toNat = (p.y.toNat * w + p.x.toNat) * 4 := by
  obtain ⟨hx0, hxw, hy0, hyh⟩ := hp
  obtain ⟨a, ha⟩ : ∃ a : Nat, p.x = (a : Int) := ⟨p.x.toNat, (Int.toNat_of_nonneg hx0).symm⟩
  obtain ⟨b, hb⟩ : ∃ b : Nat, p.y = (b : Int) := ⟨p.y.toNat, (Int.toNat_of_nonneg hy0).symm⟩
  rw [ha, hb]
  norm_cast

/-- Row-major pixel addressing is injective for in-bounds columns. -/
lemma rowMajor_inj {a1 b1 a2 b2 w : Nat} (h1 : a1 < w) (h2 : a2 < w)
    (h : b1 * w + a1 = b2 * w + a2) : a1 = a2 ∧ b1 = b2 := by
  have hw : 0 < w := lt_of_le_of_lt (Nat.zero_le _) h1
  have hmod : ∀ a b : Nat, a < w → (b * w + a) % w = a := by
    intro a b ha
    rw [Nat.add_comm, Nat.mul_comm, Nat.add_mul_mod_self_left, Nat.mod_eq_of_lt ha]
  have hdiv : ∀ a b : Nat, a < w → (b * w + a) / w = b := by
    intro a b ha
    rw [Nat.add_comm, Nat.mul_comm, Nat.add_mul_div_left _ _ hw, Nat.div_eq_of_lt ha,
      Nat.zero_add]
  constructor
  · have := congrArg (· % w) h
    simpa [hmod _ _ h1, hmod _ _ h2] using this
  · have := congrArg (· / w) h
    simpa [hdiv _ _ h1, hdiv _ _ h2] using this

lemma getD_set_self {l : List Nat} {i a : Nat} (h : i < l.length) :
    (l.set i a).getD i 0 = a := by
  simp [List.getD_eq_getElem?_getD, List.getElem?_set, h]

lemma getD_set_ne {l : List Nat} {i j a : Nat} (h : i ≠ j) :
    (l.set i a).getD j 0 = l.getD j 0 := by
  simp [List.getD_eq_getElem?_getD, List.getElem?_set, h]

lemma getD_four_sets_other {data : ImageBytes} {i j : Nat} {v0 v1 v2 v3 : Nat}
    (h0 : i ≠ j) (h1 : i + 1 ≠ j) (h2 : i + 2 ≠ j) (h3 : i + 3 ≠ j) :
    ((((data.set i v0).set (i + 1) v1).set (i + 2) v2).set (i + 3) v3).getD j 0 =
      data.getD j 0 := by
  rw [getD_set_ne h3, getD_set_ne h2, getD_set_ne h1, getD_set_ne h0]

lemma length_setPixelColor (p : Pixel) (c : Color) (data : ImageBytes) (w : Nat) :
    (setPixelColor p c data w).length = data.length := by
  simp [setPixelColor]

/-- The byte index of an in-bounds pixel is within the buffer. -/
lemma pixelIndex_lt {p : Pixel} {w h : Nat} (hp : inBoundsP p w h)
    {data : ImageBytes} (hlen : data.length = w * h * 4) :
    (p.y.toNat * w + p.x.toNat) * 4 + 3 < data.length := by
  obtain ⟨hx0, hxw, hy0, hyh⟩ := hp
  have ha : p.x.toNat < w := by omega
  have hb : p.y.toNat < h := by omega
  have hlt : p.y.toNat * w + p.x.toNat < h * w := by
    calc p.y.toNat * w + p.x.toNat < p.y.toNat * w + w := by omega
    _ = (p.y.toNat + 1) * w := by ring
    _ ≤ h * w := Nat.mul_le_mul_right w (by omega)
  rw [hlen]
  have : w * h = h * w := Nat.mul_comm w h
  omega

/-- Reading back an in-bounds pixel just written yields the written colour
(channel-clamped). -/
lemma getPixel_setPixel_self {p : Pixel} {w h : Nat} (hp : inBoundsP p w h) (c : Color)
    {data : ImageBytes} (hlen : data.length = w * h * 4) :
    getPixelColorFromImageData p (setPixelColor p c data w) w = clampColor c := by
  have hidx := pixelIndex_eq hp
  have hlt := pixelIndex_lt hp hlen
  set i := (p.y.toNat * w + p.x.toNat) * 4 with hi
  unfold getPixelColorFromImageData setPixelColor clampColor
  simp only [hidx, ← hi]
  refine Color.ext ?_ ?_ ?_ ?_ <;> simp only []
  · rw [getD_set_ne (by omega), getD_set_ne (by omega), getD_set_ne (by omega),
      getD_set_self (by omega)]
  · rw [getD_set_ne (by omega), getD_set_ne (by omega),
      getD_set_self (by simp only [List.length_set]; omega)]
  · rw [getD_set_ne (by omega),
      getD_set_self (by simp only [List.length_set]; omega)]
  · rw [getD_set_self (by simp only [List.length_set]; omega)]

/-- Writing one in-bounds pixel leaves every other in-bounds pixel's colour
unchanged. -/
lemma getPixel_setPixel_other {p q : Pixel} {w h : Nat} (hp : inBoundsP p w h)
    (hq : inBoundsP q w h) (hne : q ≠ p) (c : Color) (data : ImageBytes) :
    getPixelColorFromImageData q (setPixelColor p c data w) w =
      getPixelColorFromImageData q data w := by
  have hidxp := pixelIndex_eq hp
  have hidxq := pixelIndex_eq hq
  obtain ⟨hpx0, hpxw, hpy0, hpyh⟩ := hp
  obtain ⟨hqx0, hqxw, hqy0, hqyh⟩ := hq
  have hbase : p.y.toNat * w + p.x.toNat ≠ q.y.toNat * w + q.x.toNat := by
    intro hcontra
    rcases rowMajor_inj (by omega : p.x.toNat < w) (by omega : q.x.toNat < w) hcontra with
      ⟨hax, hby⟩
    apply hne
    refine Pixel.ext ?_ ?_ <;> omega
  set ip := (p.y.toNat * w + p.x.toNat) * 4 with hip
  set iq := (q.y.toNat * w + q.x.toNat) * 4 with hiq
  have hfar : ip + 4 ≤ iq ∨ iq + 4 ≤ ip := by omega
  unfold getPixelColorFromImageData setPixelColor
  simp only [hidxp, hidxq, ← hip, ← hiq]
  refine Color.ext ?_ ?_ ?_ ?_ <;> simp only [] <;>
    exact getD_four_sets_other (by omega) (by omega) (by omega) (by omega)

/-- A colour always matches itself within any tolerance. -/
lemma colorsEqual_refl (c : Color) (t : Nat) : colorsEqual c c t = true := by
  unfold colorsEqual
  by_cases hc : c.a = 0 <;> simp [hc]

lemma clampColor_eq_self {c : Color} (hr : c.r ≤ 255) (hg : c.g ≤ 255) (hb : c.b ≤ 255)
    (ha : c.a ≤ 255) : clampColor c = c := by
  unfold clampColor clampByte
  refine Color.ext ?_ ?_ ?_ ?_ <;> simp <;> omega

/-- C9: for all RGBA colours and tolerances, `colorsEqual c1 c2 t` is true
iff both colours are fully transparent (`a = 0`, regardless of RGB), or
neither is fully transparent and all four channel absolute differences are
at most `t`; in particular when exactly one of the two is fully transparent
the result is false. -/
theorem claim_C9_colorsEqual_spec (c1 c2 : Color) (t : Nat) :
    (colorsEqual c1 c2 t = true ↔
      ((c1.a = 0 ∧ c2.a = 0) ∨
        (c1.a ≠ 0 ∧ c2.a ≠ 0 ∧
          ((c1.r : Int) - c2.r).natAbs ≤ t ∧ ((c1.g : Int) - c2.g).natAbs ≤ t ∧
          ((c1.b : Int) - c2.b).natAbs ≤ t ∧ ((c1.a : Int) - c2.a).natAbs ≤ t))) ∧
    (c1.a = 0 ∧ c2.a ≠ 0 → colorsEqual c1 c2 t = false) ∧
    (c1.a ≠ 0 ∧ c2.a = 0 → colorsEqual c1 c2 t = false) := by
  unfold colorsEqual
  by_cases h1 : c1.a = 0 <;> by_cases h2 : c2.a = 0 <;>
    simp [h1, h2] <;> tauto

/-- C8: an out-of-bounds seed is not an error: the fill terminates normally
(one pop of the seed, which fails the bounds check), leaves every pixel of
the buffer unchanged, and returns the bounding box degenerate to the seed
point. -/
theorem claim_C8_out_of_bounds_seed (data : ImageBytes) (startX startY : Int)
    (targetColor fillColor : Color) (w h tol fuel : Nat)
    (hseed : ¬ inBoundsP ⟨startX, startY⟩ w h) (hfuel : 1 ≤ fuel) :
    performFloodFill fuel data startX startY targetColor fillColor w h tol =
      some (data, ⟨startX, startX, startY, startY⟩) := by
  obtain ⟨n, rfl⟩ : ∃ n, fuel = n + 1 := ⟨fuel - 1, by omega⟩
  unfold performFloodFill createFillArea
  have hoob : shouldFillPixel ⟨startX, startY⟩ w h data targetColor tol = false := by
    unfold shouldFillPixel
    rw [if_pos (isPixelOutOfBounds_eq_true_iff.mpr hseed)]
  simp [processFillStack, hoob]

/-- The four pushes of `addNeighboringPixelsToStack`, as an explicit stack
(top first: up, down, left, right). -/
lemma addNeighboringPixelsToStack_eq (p : Pixel) (stack : List Pixel) :
    addNeighboringPixelsToStack p stack =
      ⟨p.x, p.y - 1⟩ :: ⟨p.x, p.y + 1⟩ :: ⟨p.x - 1, p.y⟩ :: ⟨p.x + 1, p.y⟩ :: stack := by
  unfold addNeighboringPixelsToStack NEIGHBOUR_OFFSETS
  simp only [List.foldl_cons, List.foldl_nil]
  norm_num [Pixel.ext_iff]
  omega

lemma shouldFillPixel_eq_true_iff {q : Pixel} {w h : Nat} {data : ImageBytes}
    {T : Color} {tol : Nat} :
    shouldFillPixel q w h data T tol = true ↔
      inBoundsP q w h ∧
        colorsEqual (getPixelColorFromImageData q data w) T tol = true := by
  unfold shouldFillPixel
  cases hb : isPixelOutOfBounds q w h
  · simp [isPixelOutOfBounds_eq_false_iff.mp hb]
  · simp [isPixelOutOfBounds_eq_true_iff.mp hb]

/-- One loop iteration that pops a non-fillable pixel. -/
lemma processFillStack_cons_skip {fuel : Nat} {q : Pixel} {rest : List Pixel}
    {data : ImageBytes} {w h : Nat} {T F : Color} {tol : Nat} {bb : BoundingBox}
    (hq : shouldFillPixel q w h data T tol = false) :
    processFillStack (fuel + 1) (q :: rest) data w h T F tol bb =
      processFillStack fuel rest data w h T F tol bb := by
  rw [processFillStack, if_neg (by simp [hq])]

/-- One loop iteration that pops a fillable pixel. -/
lemma processFillStack_cons_fill {fuel : Nat} {q : Pixel} {rest : List Pixel}
    {data : ImageBytes} {w h : Nat} {T F : Color} {tol : Nat} {bb : BoundingBox}
    (hq : shouldFillPixel q w h data T tol = true) :
    processFillStack (fuel + 1) (q :: rest) data w h T F tol bb =
      processFillStack fuel (addNeighboringPixelsToStack q rest)
        (fillPixel q data w F) w h T F tol (extendBoundingBox bb q) := by
  rw [processFillStack, if_pos hq]

lemma processFillStack_nil {fuel : Nat} {data : ImageBytes} {w h : Nat}
    {T F : Color} {tol : Nat} {bb : BoundingBox} :
    processFillStack fuel [] data w h T F tol bb = some (data, bb) := by
  cases fuel <;> rfl

/-- If fill and target match within tolerance, any fully matching buffer on
a canvas at least two pixels wide keeps an in-bounds pixel on the stack
forever: the `while` loop never exits, whatever the fuel. -/
lemma processFillStack_all_match_none (w h : Nat) (T F : Color) (tol : Nat)
    (hw : 2 ≤ w)
    (hFmatch : colorsEqual (clampColor F) T tol = true) :
    ∀ (fuel : Nat) (stack : List Pixel) (data : ImageBytes) (bb : BoundingBox),
      data.length = w * h * 4 →
      (∀ p : Pixel, inBoundsP p w h →
        colorsEqual (getPixelColorFromImageData p data w) T tol = true) →
      (∃ p ∈ stack, inBoundsP p w h) →
      processFillStack fuel stack data w h T F tol bb = none := by
  intro fuel
  induction fuel with
  | zero =>
    intro stack data bb hlen hall hex
    obtain ⟨p, hmem, hpb⟩ := hex
    cases stack with
    | nil => simp at hmem
    | cons q rest => rfl
  | succ n ih =>
    intro stack data bb hlen hall hex
    obtain ⟨p, hmem, hpb⟩ := hex
    cases stack with
    | nil => simp at hmem
    | cons q rest =>
      by_cases hq : shouldFillPixel q w h data T tol = true
      · rw [processFillStack_cons_fill hq]
        have hqb : inBoundsP q w h := (shouldFillPixel_eq_true_iff.mp hq).1
        apply ih
        · rw [fillPixel, length_setPixelColor]; exact hlen
        · intro r hrb
          by_cases hr : r = q
          · subst hr
            rw [fillPixel, getPixel_setPixel_self hrb F hlen]
            exact hFmatch
          · rw [fillPixel, getPixel_setPixel_other hqb hrb hr]
            exact hall r hrb
        · obtain ⟨hqx0, hqxw, hqy0, hqyh⟩ := hqb
          rw [addNeighboringPixelsToStack_eq]
          by_cases hxr : q.x + 1 < (w : Int)
          · exact ⟨⟨q.x + 1, q.y⟩, by simp, by simp only [inBoundsP]; omega⟩
          · exact ⟨⟨q.x - 1, q.y⟩, by simp, by simp only [inBoundsP]; omega⟩
      · rw [processFillStack_cons_skip (by simpa using hq)]
        apply ih _ _ _ hlen hall
        have hqoob : ¬ inBoundsP q w h := by
          intro hqb
          exact hq (shouldFillPixel_eq_true_iff.mpr ⟨hqb, hall q hqb⟩)
        have hpq : p ≠ q := fun hcontra => hqoob (hcontra ▸ hpb)
        exact ⟨p, by simpa [hpq] using hmem, hpb⟩

/-- Executable check that every in-bounds pixel of the buffer matches the
target colour within tolerance. -/
def allPixelsMatch (data : ImageBytes) (w h : Nat) (T : Color) (tol : Nat) : Bool :=
  (List.range w).all fun x => (List.range h).all fun y =>
    colorsEqual (getPixelColorFromImageData ⟨(x : Int), (y : Int)⟩ data w) T tol

/-- Bridge from the executable all-pixels check to quantification over
in-bounds pixels. -/
lemma allMatch_of_allPixelsMatch {data : ImageBytes} {w h : Nat} {T : Color} {tol : Nat}
    (hall : allPixelsMatch data w h T tol = true) :
    ∀ p : Pixel, inBoundsP p w h →
      colorsEqual (getPixelColorFromImageData p data w) T tol = true := by
  intro p hp
  obtain ⟨hx0, hxw, hy0, hyh⟩ := hp
  unfold allPixelsMatch at hall
  rw [List.all_eq_true] at hall
  have h1 := hall p.x.toNat (List.mem_range.mpr (by omega))
  simp only [List.all_eq_true] at h1
  have hinst := h1 p.y.toNat (List.mem_range.mpr (by omega))
  have hpe : (⟨(p.x.toNat : Int), (p.y.toNat : Int)⟩ : Pixel) = p := by
    rw [Int.toNat_of_nonneg hx0, Int.toNat_of_nonneg hy0]
  rwa [hpe] at hinst

/-- C1 (amended): when `fillColor` matches `targetColor` within tolerance,
the match-on-pop semantics do NOT naturally terminate: on any buffer at
least two pixels wide whose in-bounds pixels all match `targetColor`, with
an in-bounds seed, `performFloodFill` never returns — the loop re-fills
pixels (each with its own colour) and re-pushes their neighbours forever,
so no amount of fuel finishes the stack.  Termination (with the buffer
unchanged) holds only in degenerate cases such as a non-matching or
out-of-bounds seed; callers must pre-check the colour equality, as the
repository's call site does via `shouldSkipFill`. -/
theorem claim_C1_degenerate_fill_diverges (data : ImageBytes) (startX startY : Int)
    (targetColor fillColor : Color) (w h tol : Nat)
    (hw : 2 ≤ w)
    (hlen : data.length = w * h * 4)
    (hseed : inBoundsP ⟨startX, startY⟩ w h)
    (hFmatch : colorsEqual (clampColor fillColor) targetColor tol = true)
    (hall : allPixelsMatch data w h targetColor tol = true) :
    ∀ fuel, performFloodFill fuel data startX startY targetColor fillColor w h tol
      = none := by
  intro fuel
  unfold performFloodFill createFillArea
  exact processFillStack_all_match_none w h targetColor fillColor tol hw hFmatch fuel
    [⟨startX, startY⟩] data _ hlen (allMatch_of_allPixelsMatch hall)
    ⟨⟨startX, startY⟩, by simp, hseed⟩

/-- Counterexample to C1 as stated: with `targetColor = fillColor` (equal
within tolerance 0) on a 2x1 all-black buffer with an in-bounds seed,
`performFloodFill` does not terminate: no fuel ever produces a result. -/
theorem claim_C1_counterexample :
    colorsEqual ⟨0, 0, 0, 255⟩ ⟨0, 0, 0, 255⟩ 0 = true ∧
    ¬ ∃ (fuel : Nat) (result : ImageBytes × BoundingBox),
        performFloodFill fuel [0, 0, 0, 255, 0, 0, 0, 255] 0 0
          ⟨0, 0, 0, 255⟩ ⟨0, 0, 0, 255⟩ 2 1 0 = some result := by
  refine ⟨by decide, ?_⟩
  rintro ⟨fuel, result, hres⟩
  have hnone := processFillStack_all_match_none 2 1 ⟨0, 0, 0, 255⟩ ⟨0, 0, 0, 255⟩ 0
    (by omega) (by decide) fuel [⟨0, 0⟩] [0, 0, 0, 255, 0, 0, 0, 255] ⟨0, 0, 0, 0⟩
    (by decide) (allMatch_of_allPixelsMatch (by decide)) ⟨⟨0, 0⟩, by simp, by decide⟩
  unfold performFloodFill createFillArea at hres
  rw [hnone] at hres
  cases hres

/-- Witness for C1 (amended) at a concrete input: the 2x1 all-black buffer
with target = fill = black satisfies every hypothesis, and in particular
1000 fuel still does not finish. -/
theorem claim_C1_witness :
    (2 ≤ 2) ∧
    ([0, 0, 0, 255, 0, 0, 0, 255] : ImageBytes).length = 2 * 1 * 4 ∧
    inBoundsP ⟨0, 0⟩ 2 1 ∧
    colorsEqual (clampColor ⟨0, 0, 0, 255⟩) ⟨0, 0, 0, 255⟩ 0 = true ∧
    allPixelsMatch [0, 0, 0, 255, 0, 0, 0, 255] 2 1 ⟨0, 0, 0, 255⟩ 0 = true ∧
    performFloodFill 1000 [0, 0, 0, 255, 0, 0, 0, 255] 0 0
      ⟨0, 0, 0, 255⟩ ⟨0, 0, 0, 255⟩ 2 1 0 = none :=
  ⟨by omega, by decide, by decide, by decide, by decide,
    claim_C1_degenerate_fill_diverges [0, 0, 0, 255, 0, 0, 0, 255] 0 0
      ⟨0, 0, 0, 255⟩ ⟨0, 0, 0, 255⟩ 2 1 0 (by omega) (by decide) (by decide)
      (by decide) (by decide) 1000⟩

lemma set_getD_self (l : List Nat) : ∀ i, i < l.length → l.set i (l.getD i 0) = l := by
  induction l with
  | nil => intro i hi; simp at hi
  | cons a t ih =>
    intro i hi
    cases i with
    | zero => simp [List.getD]
    | succ n =>
      simp only [List.set_cons_succ, List.getD_cons_succ]
      rw [ih n (by simpa using hi)]

/-- Writing back the colour a pixel already holds leaves the buffer
byte-identical (channels at most 255, pixel in bounds). -/
lemma setPixelColor_readback_noop {p : Pixel} {w h : Nat} (hp : inBoundsP p w h)
    {data : ImageBytes} (hlen : data.length = w * h * 4) {C : Color}
    (hC : getPixelColorFromImageData p data w = C)
    (hr : C.r ≤ 255) (hg : C.g ≤ 255) (hb : C.b ≤ 255) (ha : C.a ≤ 255) :
    setPixelColor p C data w = data := by
  have hidx := pixelIndex_eq hp
  have hlt := pixelIndex_lt hp hlen
  set i := (p.y.toNat * w + p.x.toNat) * 4 with hi
  have hCr : C.r = data.getD i 0 := by rw [← hC]; simp [getPixelColorFromImageData, hidx]
  have hCg : C.g = data.getD (i + 1) 0 := by
    rw [← hC]; simp [getPixelColorFromImageData, hidx]
  have hCb : C.b = data.getD (i + 2) 0 := by
    rw [← hC]; simp [getPixelColorFromImageData, hidx]
  have hCa : C.a = data.getD (i + 3) 0 := by
    rw [← hC]; simp [getPixelColorFromImageData, hidx]
  unfold setPixelColor clampByte
  simp only [hidx, ← hi]
  rw [min_eq_left hr, min_eq_left hg, min_eq_left hb, min_eq_left ha]
  rw [hCr, set_getD_self data i (by omega)]
  rw [hCg, set_getD_self data (i + 1) (by omega)]
  rw [hCb, set_getD_self data (i + 2) (by omega)]
  rw [hCa, set_getD_self data (i + 3) (by omega)]

/-- C2 (amended): the second fill is a no-op exactly in the isolated-seed
case.  With `targetColor = fillColor = C` the colour sampled at the seed
after the first call (channels at most 255, as produced by the first
call), if no 4-neighbour of the seed is fillable, the second call
terminates (5 pops suffice), returns the buffer byte-unchanged, and the
bounding box degenerate to the seed.  When the first call's region
contains two or more edge-adjacent pixels the second call instead never
terminates — see the counterexample. -/
theorem claim_C2_second_fill_noop (data : ImageBytes) (w h : Nat) (sx sy : Int)
    (C : Color) (tol fuel : Nat)
    (hlen : data.length = w * h * 4)
    (hseed : inBoundsP ⟨sx, sy⟩ w h)
    (hC : getPixelColorFromImageData ⟨sx, sy⟩ data w = C)
    (hr : C.r ≤ 255) (hg : C.g ≤ 255) (hb : C.b ≤ 255) (ha : C.a ≤ 255)
    (hnb1 : shouldFillPixel ⟨sx + 1, sy⟩ w h data C tol = false)
    (hnb2 : shouldFillPixel ⟨sx - 1, sy⟩ w h data C tol = false)
    (hnb3 : shouldFillPixel ⟨sx, sy + 1⟩ w h data C tol = false)
    (hnb4 : shouldFillPixel ⟨sx, sy - 1⟩ w h data C tol = false)
    (hfuel : 5 ≤ fuel) :
    performFloodFill fuel data sx sy C C w h tol =
      some (data, ⟨sx, sx, sy, sy⟩) := by
  obtain ⟨n, rfl⟩ : ∃ n, fuel = n + 5 := ⟨fuel - 5, by omega⟩
  unfold performFloodFill createFillArea
  have hseedfill : shouldFillPixel ⟨sx, sy⟩ w h data C tol = true :=
    shouldFillPixel_eq_true_iff.mpr ⟨hseed, by rw [hC]; exact colorsEqual_refl C tol⟩
  have hwrite : fillPixel ⟨sx, sy⟩ data w C = data :=
    setPixelColor_readback_noop hseed hlen hC hr hg hb ha
  have hbb : extendBoundingBox ⟨sx, sx, sy, sy⟩ ⟨sx, sy⟩ = ⟨sx, sx, sy, sy⟩ := by
    simp [extendBoundingBox]
  rw [(by omega : n + 5 = (n + 4) + 1), processFillStack_cons_fill hseedfill,
    hwrite, hbb, addNeighboringPixelsToStack_eq]
  simp only []
  rw [(by omega : n + 4 = (n + 3) + 1), processFillStack_cons_skip hnb4]
  rw [(by omega : n + 3 = (n + 2) + 1), processFillStack_cons_skip hnb3]
  rw [(by omega : n + 2 = (n + 1) + 1), processFillStack_cons_skip hnb2]
  rw [processFillStack_cons_skip hnb1]
  exact processFillStack_nil

/-- Counterexample to C2 as stated: on a 2x1 all-black buffer, a first
fill with red succeeds (both pixels turn red, bounding box spans the
region), but the second call at the same seed with `targetColor`
re-sampled at the seed (= red) and `fillColor` red never terminates: no
fuel ever produces the claimed no-op result. -/
theorem claim_C2_counterexample :
    performFloodFill 20 [0, 0, 0, 255, 0, 0, 0, 255] 0 0
        ⟨0, 0, 0, 255⟩ ⟨255, 0, 0, 255⟩ 2 1 0 =
      some ([255, 0, 0, 255, 255, 0, 0, 255], ⟨0, 1, 0, 0⟩) ∧
    colorsEqual ⟨255, 0, 0, 255⟩ ⟨0, 0, 0, 255⟩ 0 = false ∧
    ¬ ∃ (fuel : Nat) (result : ImageBytes × BoundingBox),
        performFloodFill fuel [255, 0, 0, 255, 255, 0, 0, 255] 0 0
          ⟨255, 0, 0, 255⟩ ⟨255, 0, 0, 255⟩ 2 1 0 = some result := by
  refine ⟨by decide, by decide, ?_⟩
  rintro ⟨fuel, result, hres⟩
  have hnone := processFillStack_all_match_none 2 1 ⟨255, 0, 0, 255⟩ ⟨255, 0, 0, 255⟩ 0
    (by omega) (by decide) fuel [⟨0, 0⟩] [255, 0, 0, 255, 255, 0, 0, 255] ⟨0, 0, 0, 0⟩
    (by decide) (allMatch_of_allPixelsMatch (by decide)) ⟨⟨0, 0⟩, by simp, by decide⟩
  unfold performFloodFill createFillArea at hres
  rw [hnone] at hres
  cases hres

/-- Witness for C2 (amended) at a concrete input: a 1x1 buffer already
holding the fill colour; all four neighbours are out of bounds, so the
second call is a no-op with the degenerate bounding box. -/
theorem claim_C2_witness :
    ([5, 6, 7, 255] : ImageBytes).length = 1 * 1 * 4 ∧
    inBoundsP ⟨0, 0⟩ 1 1 ∧
    getPixelColorFromImageData ⟨0, 0⟩ [5, 6, 7, 255] 1 = ⟨5, 6, 7, 255⟩ ∧
    shouldFillPixel ⟨0 + 1, 0⟩ 1 1 [5, 6, 7, 255] ⟨5, 6, 7, 255⟩ 0 = false ∧
    performFloodFill 5 [5, 6, 7, 255] 0 0 ⟨5, 6, 7, 255⟩ ⟨5, 6, 7, 255⟩ 1 1 0 =
      some ([5, 6, 7, 255], ⟨0, 0, 0, 0⟩) :=
  ⟨by decide, by decide, by decide, by decide,
    claim_C2_second_fill_noop [5, 6, 7, 255] 1 1 0 0 ⟨5, 6, 7, 255⟩ 0 5
      (by decide) (by decide) (by decide) (by decide) (by decide) (by decide)
      (by decide) (by decide) (by decide) (by decide) (by decide) (le_refl 5)⟩

/-- Membership of a pixel in a bounding box (inclusive). -/
def inBB (bb : BoundingBox) (p : Pixel) : Prop :=
  bb.minX ≤ p.x ∧ p.x ≤ bb.maxX ∧ bb.minY ≤ p.y ∧ p.y ≤ bb.maxY

/-- Each of the four edges of the bounding box contains at least one pixel
whose colour differs from the original buffer `d0`. -/
def EdgeTouched (d0 : ImageBytes) (w h : Nat) (data : ImageBytes) (bb : BoundingBox) : Prop :=
  (∃ q : Pixel, inBoundsP q w h ∧
    getPixelColorFromImageData q data w ≠ getPixelColorFromImageData q d0 w ∧
    q.x = bb.minX ∧ bb.minY ≤ q.y ∧ q.y ≤ bb.maxY) ∧
  (∃ q : Pixel, inBoundsP q w h ∧
    getPixelColorFromImageData q data w ≠ getPixelColorFromImageData q d0 w ∧
    q.x = bb.maxX ∧ bb.minY ≤ q.y ∧ q.y ≤ bb.maxY) ∧
  (∃ q : Pixel, inBoundsP q w h ∧
    getPixelColorFromImageData q data w ≠ getPixelColorFromImageData q d0 w ∧
    q.y = bb.minY ∧ bb.minX ≤ q.x ∧ q.x ≤ bb.maxX) ∧
  (∃ q : Pixel, inBoundsP q w h ∧
    getPixelColorFromImageData q data w ≠ getPixelColorFromImageData q d0 w ∧
    q.y = bb.maxY ∧ bb.minX ≤ q.x ∧ q.x ≤ bb.maxX)

/-- Main invariant induction for bounding-box tightness: if every changed
pixel so far lies inside the box (and holds the fill colour) and all four
edges are touched, the loop's final box satisfies the same, and pixels
outside the final box are unchanged. -/
lemma processFillStack_tight (w h : Nat) (T F : Color) (tol : Nat) (d0 : ImageBytes)
    (hF : colorsEqual F T tol = false)
    (hr : F.r ≤ 255) (hg : F.g ≤ 255) (hb : F.b ≤ 255) (ha : F.a ≤ 255) :
    ∀ (fuel : Nat) (stack : List Pixel) (data : ImageBytes) (bb : BoundingBox)
      (data' : ImageBytes) (bb' : BoundingBox),
      data.length = w * h * 4 →
      (∀ p, inBoundsP p w h →
        getPixelColorFromImageData p data w ≠ getPixelColorFromImageData p d0 w →
        inBB bb p ∧ getPixelColorFromImageData p data w = F) →
      EdgeTouched d0 w h data bb →
      processFillStack fuel stack data w h T F tol bb = some (data', bb') →
      (∀ p, inBoundsP p w h → ¬ inBB bb' p →
        getPixelColorFromImageData p data' w = getPixelColorFromImageData p d0 w) ∧
      EdgeTouched d0 w h data' bb' := by
  intro fuel
  induction fuel with
  | zero =>
    intro stack data bb data' bb' hlen hchg hedges hrun
    cases stack with
    | nil =>
      rw [processFillStack_nil] at hrun
      injection hrun with hpair
      injection hpair with hdata hbbeq
      subst hdata; subst hbbeq
      refine ⟨?_, hedges⟩
      intro p hpb hnot
      by_contra hcontra
      exact hnot (hchg p hpb hcontra).1
    | cons q rest => cases hrun
  | succ n ih =>
    intro stack data bb data' bb' hlen hchg hedges hrun
    cases stack with
    | nil =>
      rw [processFillStack_nil] at hrun
      injection hrun with hpair
      injection hpair with hdata hbbeq
      subst hdata; subst hbbeq
      refine ⟨?_, hedges⟩
      intro p hpb hnot
      by_contra hcontra
      exact hnot (hchg p hpb hcontra).1
    | cons q rest =>
      by_cases hq : shouldFillPixel q w h data T tol = true
      · rw [processFillStack_cons_fill hq] at hrun
        obtain ⟨hqb, hqmatch⟩ := shouldFillPixel_eq_true_iff.mp hq
        -- q was unchanged before this write
        have hqD : getPixelColorFromImageData q data w = getPixelColorFromImageData q d0 w := by
          by_contra hqD
          have := (hchg q hqb hqD).2
          rw [this] at hqmatch
          rw [hqmatch] at hF
          cases hF
        have hq_d0_match : colorsEqual (getPixelColorFromImageData q d0 w) T tol = true :=
          hqD ▸ hqmatch
        have hqnew_val :
            getPixelColorFromImageData q (fillPixel q data w F) w = F := by
          rw [fillPixel, getPixel_setPixel_self hqb F hlen]
          exact clampColor_eq_self hr hg hb ha
        have hqnew :
            getPixelColorFromImageData q (fillPixel q data w F) w ≠
              getPixelColorFromImageData q d0 w := by
          rw [hqnew_val]
          intro hFeq
          rw [← hFeq] at hq_d0_match
          rw [hq_d0_match] at hF
          cases hF
        have hother : ∀ p : Pixel, inBoundsP p w h → p ≠ q →
            getPixelColorFromImageData p (fillPixel q data w F) w =
              getPixelColorFromImageData p data w := fun p hpb hpq => by
          rw [fillPixel, getPixel_setPixel_other hqb hpb hpq]
        refine ih (addNeighboringPixelsToStack q rest) (fillPixel q data w F)
          (extendBoundingBox bb q) data' bb'
          (by rw [fillPixel, length_setPixelColor]; exact hlen) ?_ ?_ hrun
        · -- changed-pixel invariant after the write
          intro p hpb hpchg
          by_cases hpq : p = q
          · subst hpq
            refine ⟨?_, hqnew_val⟩
            simp only [inBB, extendBoundingBox]
            omega
          · rw [hother p hpb hpq] at hpchg ⊢
            obtain ⟨hin, hval⟩ := hchg p hpb hpchg
            refine ⟨?_, hval⟩
            simp only [inBB, extendBoundingBox] at hin ⊢
            omega
        · -- the four edges stay touched
          obtain ⟨⟨qL, hLb, hLchg, hLx, hLy1, hLy2⟩, ⟨qR, hRb, hRchg, hRx, hRy1, hRy2⟩,
            ⟨qT, hTb, hTchg, hTy, hTx1, hTx2⟩, ⟨qB, hBb, hBchg, hBy, hBx1, hBx2⟩⟩ := hedges
          refine ⟨?_, ?_, ?_, ?_⟩
          · by_cases hcase : q.x ≤ bb.minX
            · exact ⟨q, hqb, hqnew,
                by simp only [extendBoundingBox]; omega,
                by simp only [extendBoundingBox]; omega,
                by simp only [extendBoundingBox]; omega⟩
            · have hne : qL ≠ q := fun hcontra => by
                rw [hcontra] at hLx; omega
              refine ⟨qL, hLb, ?_,
                by simp only [extendBoundingBox]; omega,
                by simp only [extendBoundingBox]; omega,
                by simp only [extendBoundingBox]; omega⟩
              rw [hother qL hLb hne]
              exact hLchg
          · by_cases hcase : bb.maxX ≤ q.x
            · exact ⟨q, hqb, hqnew,
                by simp only [extendBoundingBox]; omega,
                by simp only [extendBoundingBox]; omega,
                by simp only [extendBoundingBox]; omega⟩
            · have hne : qR ≠ q := fun hcontra => by
                rw [hcontra] at hRx; omega
              refine ⟨qR, hRb, ?_,
                by simp only [extendBoundingBox]; omega,
                by simp only [extendBoundingBox]; omega,
                by simp only [extendBoundingBox]; omega⟩
              rw [hother qR hRb hne]
              exact hRchg
          · by_cases hcase : q.y ≤ bb.minY
            · exact ⟨q, hqb, hqnew,
                by simp only [extendBoundingBox]; omega,
                by simp only [extendBoundingBox]; omega,
                by simp only [extendBoundingBox]; omega⟩
            · have hne : qT ≠ q := fun hcontra => by
                rw [hcontra] at hTy; omega
              refine ⟨qT, hTb, ?_,
                by simp only [extendBoundingBox]; omega,
                by simp only [extendBoundingBox]; omega,
                by simp only [extendBoundingBox]; omega⟩
              rw [hother qT hTb hne]
              exact hTchg
          · by_cases hcase : bb.maxY ≤ q.y
            · exact ⟨q, hqb, hqnew,
                by simp only [extendBoundingBox]; omega,
                by simp only [extendBoundingBox]; omega,
                by simp only [extendBoundingBox]; omega⟩
            · have hne : qB ≠ q := fun hcontra => by
                rw [hcontra] at hBy; omega
              refine ⟨qB, hBb, ?_,
                by simp only [extendBoundingBox]; omega,
                by simp only [extendBoundingBox]; omega,
                by simp only [extendBoundingBox]; omega⟩
              rw [hother qB hBb hne]
              exact hBchg
      · rw [processFillStack_cons_skip (by simpa using hq)] at hrun
        exact ih rest data bb data' bb' hlen hchg hedges hrun

/-- C3: for a fill whose `fillColor` does not match `targetColor` within
tolerance, with an in-bounds seed matching `targetColor` (so at least one
pixel changes): every in-bounds pixel strictly outside the returned
bounding box keeps its pre-call colour, and each of the four edges of the
returned bounding box contains at least one pixel whose colour changed. -/
theorem claim_C3_bounding_box_tightness (d0 : ImageBytes) (sx sy : Int) (T F : Color)
    (w h tol fuel : Nat) (data' : ImageBytes) (bb' : BoundingBox)
    (hlen : d0.length = w * h * 4)
    (hF : colorsEqual F T tol = false)
    (hr : F.r ≤ 255) (hg : F.g ≤ 255) (hb : F.b ≤ 255) (ha : F.a ≤ 255)
    (hseed : inBoundsP ⟨sx, sy⟩ w h)
    (hmatch : colorsEqual (getPixelColorFromImageData ⟨sx, sy⟩ d0 w) T tol = true)
    (hrun : performFloodFill fuel d0 sx sy T F w h tol = some (data', bb')) :
    (∀ p, inBoundsP p w h → ¬ inBB bb' p →
      getPixelColorFromImageData p data' w = getPixelColorFromImageData p d0 w) ∧
    EdgeTouched d0 w h data' bb' ∧
    (∃ p, inBoundsP p w h ∧
      getPixelColorFromImageData p data' w ≠ getPixelColorFromImageData p d0 w) := by
  cases fuel with
  | zero =>
    unfold performFloodFill createFillArea at hrun
    simp [processFillStack] at hrun
  | succ n =>
    unfold performFloodFill createFillArea at hrun
    have hseedfill : shouldFillPixel ⟨sx, sy⟩ w h d0 T tol = true :=
      shouldFillPixel_eq_true_iff.mpr ⟨hseed, hmatch⟩
    rw [processFillStack_cons_fill hseedfill] at hrun
    have hbbeq : extendBoundingBox ⟨sx, sx, sy, sy⟩ ⟨sx, sy⟩ = ⟨sx, sx, sy, sy⟩ := by
      simp [extendBoundingBox]
    rw [hbbeq] at hrun
    have hseedval :
        getPixelColorFromImageData ⟨sx, sy⟩ (fillPixel ⟨sx, sy⟩ d0 w F) w = F := by
      rw [fillPixel, getPixel_setPixel_self hseed F hlen]
      exact clampColor_eq_self hr hg hb ha
    have hseedchg :
        getPixelColorFromImageData ⟨sx, sy⟩ (fillPixel ⟨sx, sy⟩ d0 w F) w ≠
          getPixelColorFromImageData ⟨sx, sy⟩ d0 w := by
      rw [hseedval]
      intro hFeq
      rw [← hFeq] at hmatch
      rw [hmatch] at hF
      cases hF
    have hother : ∀ p : Pixel, inBoundsP p w h → p ≠ ⟨sx, sy⟩ →
        getPixelColorFromImageData p (fillPixel ⟨sx, sy⟩ d0 w F) w =
          getPixelColorFromImageData p d0 w := fun p hpb hpq => by
      rw [fillPixel, getPixel_setPixel_other hseed hpb hpq]
    have hmain := processFillStack_tight w h T F tol d0 hF hr hg hb ha n
      (addNeighboringPixelsToStack ⟨sx, sy⟩ []) (fillPixel ⟨sx, sy⟩ d0 w F)
      ⟨sx, sx, sy, sy⟩ data' bb'
      (by rw [fillPixel, length_setPixelColor]; exact hlen)
      (by
        intro p hpb hpchg
        by_cases hpq : p = (⟨sx, sy⟩ : Pixel)
        · subst hpq
          exact ⟨by simp only [inBB]; omega, hseedval⟩
        · rw [hother p hpb hpq] at hpchg
          exact absurd rfl hpchg)
      (by
        refine ⟨⟨⟨sx, sy⟩, hseed, hseedchg, by simp, by simp, by simp⟩,
          ⟨⟨sx, sy⟩, hseed, hseedchg, by simp, by simp, by simp⟩,
          ⟨⟨sx, sy⟩, hseed, hseedchg, by simp, by simp, by simp⟩,
          ⟨⟨sx, sy⟩, hseed, hseedchg, by simp, by simp, by simp⟩⟩)
      hrun
    obtain ⟨houtside, hedges⟩ := hmain
    refine ⟨houtside, hedges, ?_⟩
    obtain ⟨⟨qL, hqLb, hqLchg, _⟩, _, _, _⟩ := hedges
    exact ⟨qL, hqLb, hqLchg⟩

/-- Witness for C3 at a concrete input: filling a 2x1 all-black buffer
with red at seed (0, 0); the run returns the all-red buffer with bounding
box spanning both pixels. -/
theorem claim_C3_witness :
    ([0, 0, 0, 255, 0, 0, 0, 255] : ImageBytes).length = 2 * 1 * 4 ∧
    colorsEqual ⟨255, 0, 0, 255⟩ ⟨0, 0, 0, 255⟩ 0 = false ∧
    inBoundsP ⟨0, 0⟩ 2 1 ∧
    colorsEqual (getPixelColorFromImageData ⟨0, 0⟩ [0, 0, 0, 255, 0, 0, 0, 255] 2)
      ⟨0, 0, 0, 255⟩ 0 = true ∧
    performFloodFill 20 [0, 0, 0, 255, 0, 0, 0, 255] 0 0 ⟨0, 0, 0, 255⟩
      ⟨255, 0, 0, 255⟩ 2 1 0 =
      some ([255, 0, 0, 255, 255, 0, 0, 255], ⟨0, 1, 0, 0⟩) ∧
    ((∀ p, inBoundsP p 2 1 → ¬ inBB ⟨0, 1, 0, 0⟩ p →
      getPixelColorFromImageData p [255, 0, 0, 255, 255, 0, 0, 255] 2 =
        getPixelColorFromImageData p [0, 0, 0, 255, 0, 0, 0, 255] 2) ∧
    EdgeTouched [0, 0, 0, 255, 0, 0, 0, 255] 2 1
      [255, 0, 0, 255, 255, 0, 0, 255] ⟨0, 1, 0, 0⟩ ∧
    (∃ p, inBoundsP p 2 1 ∧
      getPixelColorFromImageData p [255, 0, 0, 255, 255, 0, 0, 255] 2 ≠
        getPixelColorFromImageData p [0, 0, 0, 255, 0, 0, 0, 255] 2)) :=
  ⟨by decide, by decide, by decide, by decide, by decide,
    claim_C3_bounding_box_tightness [0, 0, 0, 255, 0, 0, 0, 255] 0 0
      ⟨0, 0, 0, 255⟩ ⟨255, 0, 0, 255⟩ 2 1 0 20
      [255, 0, 0, 255, 255, 0, 0, 255] ⟨0, 1, 0, 0⟩
      (by decide) (by decide) (by decide) (by decide) (by decide) (by decide)
      (by decide) (by decide) (by decide)⟩

/-- 4-connected reachability from the seed: a pixel is reachable when it
is the seed itself, or one of the four offsets (+x, -x, +y, -y — exactly
`NEIGHBOUR_OFFSETS`) away from a reachable in-bounds pixel whose original
colour matches the target within tolerance.  This is the only way the
engine ever explores a pixel. -/
inductive FillReach (d0 : ImageBytes) (w h : Nat) (T : Color) (tol : Nat) (seed : Pixel) :
    Pixel → Prop
  | refl : FillReach d0 w h T tol seed seed
  | step (p q offset : Pixel) : FillReach d0 w h T tol seed p → inBoundsP p w h →
      colorsEqual (getPixelColorFromImageData p d0 w) T tol = true →
      offset ∈ NEIGHBOUR_OFFSETS → q = ⟨p.x + offset.x, p.y + offset.y⟩ →
      FillReach d0 w h T tol seed q

/-- Invariant induction for 4-connectivity: every stack entry is reachable,
and every changed pixel is reachable with a matching original colour. -/
lemma processFillStack_reach (w h : Nat) (T F : Color) (tol : Nat) (d0 : ImageBytes)
    (seed : Pixel) (hF : colorsEqual F T tol = false)
    (hr : F.r ≤ 255) (hg : F.g ≤ 255) (hb : F.b ≤ 255) (ha : F.a ≤ 255) :
    ∀ (fuel : Nat) (stack : List Pixel) (data : ImageBytes) (bb : BoundingBox)
      (data' : ImageBytes) (bb' : BoundingBox),
      data.length = w * h * 4 →
      (∀ q ∈ stack, FillReach d0 w h T tol seed q) →
      (∀ p, inBoundsP p w h →
        getPixelColorFromImageData p data w ≠ getPixelColorFromImageData p d0 w →
        FillReach d0 w h T tol seed p ∧
          colorsEqual (getPixelColorFromImageData p d0 w) T tol = true ∧
          getPixelColorFromImageData p data w = F) →
      processFillStack fuel stack data w h T F tol bb = some (data', bb') →
      ∀ p, inBoundsP p w h →
        getPixelColorFromImageData p data' w ≠ getPixelColorFromImageData p d0 w →
        FillReach d0 w h T tol seed p ∧
          colorsEqual (getPixelColorFromImageData p d0 w) T tol = true := by
  intro fuel
  induction fuel with
  | zero =>
    intro stack data bb data' bb' hlen hstack hchg hrun
    cases stack with
    | nil =>
      rw [processFillStack_nil] at hrun
      injection hrun with hpair
      injection hpair with hdata hbbeq
      subst hdata
      intro p hpb hpchg
      exact ⟨(hchg p hpb hpchg).1, (hchg p hpb hpchg).2.1⟩
    | cons q rest => cases hrun
  | succ n ih =>
    intro stack data bb data' bb' hlen hstack hchg hrun
    cases stack with
    | nil =>
      rw [processFillStack_nil] at hrun
      injection hrun with hpair
      injection hpair with hdata hbbeq
      subst hdata
      intro p hpb hpchg
      exact ⟨(hchg p hpb hpchg).1, (hchg p hpb hpchg).2.1⟩
    | cons q rest =>
      by_cases hq : shouldFillPixel q w h data T tol = true
      · rw [processFillStack_cons_fill hq] at hrun
        obtain ⟨hqb, hqmatch⟩ := shouldFillPixel_eq_true_iff.mp hq
        have hqreach : FillReach d0 w h T tol seed q := hstack q (by simp)
        have hqD : getPixelColorFromImageData q data w =
            getPixelColorFromImageData q d0 w := by
          by_contra hqD
          have := (hchg q hqb hqD).2.2
          rw [this] at hqmatch
          rw [hqmatch] at hF
          cases hF
        have hq_d0_match : colorsEqual (getPixelColorFromImageData q d0 w) T tol = true :=
          hqD ▸ hqmatch
        have hqnew_val :
            getPixelColorFromImageData q (fillPixel q data w F) w = F := by
          rw [fillPixel, getPixel_setPixel_self hqb F hlen]
          exact clampColor_eq_self hr hg hb ha
        have hother : ∀ p : Pixel, inBoundsP p w h → p ≠ q →
            getPixelColorFromImageData p (fillPixel q data w F) w =
              getPixelColorFromImageData p data w := fun p hpb hpq => by
          rw [fillPixel, getPixel_setPixel_other hqb hpb hpq]
        refine ih (addNeighboringPixelsToStack q rest) (fillPixel q data w F)
          (extendBoundingBox bb q) data' bb'
          (by rw [fillPixel, length_setPixelColor]; exact hlen) ?_ ?_ hrun
        · -- every new stack entry is reachable
          intro q' hq'
          rw [addNeighboringPixelsToStack_eq] at hq'
          simp only [List.mem_cons] at hq'
          rcases hq' with rfl | rfl | rfl | rfl | hmem
          · exact FillReach.step q _ ⟨0, -1⟩ hqreach hqb hq_d0_match (by decide)
              (by refine Pixel.ext ?_ ?_ <;> simp <;> omega)
          · exact FillReach.step q _ ⟨0, 1⟩ hqreach hqb hq_d0_match (by decide)
              (by refine Pixel.ext ?_ ?_ <;> simp <;> omega)
          · exact FillReach.step q _ ⟨-1, 0⟩ hqreach hqb hq_d0_match (by decide)
              (by refine Pixel.ext ?_ ?_ <;> simp <;> omega)
          · exact FillReach.step q _ ⟨1, 0⟩ hqreach hqb hq_d0_match (by decide)
              (by refine Pixel.ext ?_ ?_ <;> simp <;> omega)
          · exact hstack q' (by simp [hmem])
        · -- changed-pixel invariant after the write
          intro p hpb hpchg
          by_cases hpq : p = q
          · subst hpq
            exact ⟨hqreach, hq_d0_match, hqnew_val⟩
          · rw [hother p hpb hpq] at hpchg ⊢
            exact hchg p hpb hpchg
      · rw [processFillStack_cons_skip (by simpa using hq)] at hrun
        exact ih rest data bb data' bb' hlen
          (fun q' hq' => hstack q' (by simp [hq'])) hchg hrun

/-- C7: the fill uses 4-connectivity only: for every terminating run whose
fill colour does not match the target, every changed pixel is reachable
from the seed through a chain of `NEIGHBOUR_OFFSETS` steps (+x, -x, +y,
-y) over in-bounds pixels whose original colour matches the target — so a
pixel connected to the region only diagonally is never filled, and only
the four neighbours of a filled pixel are ever explored. -/
theorem claim_C7_four_connectivity (d0 : ImageBytes) (sx sy : Int) (T F : Color)
    (w h tol fuel : Nat) (data' : ImageBytes) (bb' : BoundingBox)
    (hlen : d0.length = w * h * 4)
    (hF : colorsEqual F T tol = false)
    (hr : F.r ≤ 255) (hg : F.g ≤ 255) (hb : F.b ≤ 255) (ha : F.a ≤ 255)
    (hrun : performFloodFill fuel d0 sx sy T F w h tol = some (data', bb')) :
    ∀ p, inBoundsP p w h →
      getPixelColorFromImageData p data' w ≠ getPixelColorFromImageData p d0 w →
      FillReach d0 w h T tol ⟨sx, sy⟩ p ∧
        colorsEqual (getPixelColorFromImageData p d0 w) T tol = true := by
  unfold performFloodFill createFillArea at hrun
  exact processFillStack_reach w h T F tol d0 ⟨sx, sy⟩ hF hr hg hb ha fuel
    [⟨sx, sy⟩] d0 _ data' bb' hlen
    (fun q hq => by
      simp only [List.mem_singleton] at hq
      subst hq
      exact FillReach.refl)
    (fun p hpb hchg => absurd rfl hchg)
    hrun

/-- Witness for C7 at a concrete input: the 2x2 checkerboard where the
diagonal pixel (1, 1) shares only a corner with the seed region; the run
fills only (0, 0) and leaves (1, 1) black. -/
theorem claim_C7_witness :
    ([0, 0, 0, 255, 255, 255, 255, 255,
      255, 255, 255, 255, 0, 0, 0, 255] : ImageBytes).length = 2 * 2 * 4 ∧
    colorsEqual ⟨255, 0, 0, 255⟩ ⟨0, 0, 0, 255⟩ 0 = false ∧
    performFloodFill 20
      [0, 0, 0, 255, 255, 255, 255, 255, 255, 255, 255, 255, 0, 0, 0, 255] 0 0
      ⟨0, 0, 0, 255⟩ ⟨255, 0, 0, 255⟩ 2 2 0 =
      some ([255, 0, 0, 255, 255, 255, 255, 255, 255, 255, 255, 255, 0, 0, 0, 255],
        ⟨0, 0, 0, 0⟩) ∧
    (∀ p, inBoundsP p 2 2 →
      getPixelColorFromImageData p
          [255, 0, 0, 255, 255, 255, 255, 255, 255, 255, 255, 255, 0, 0, 0, 255] 2 ≠
        getPixelColorFromImageData p
          [0, 0, 0, 255, 255, 255, 255, 255, 255, 255, 255, 255, 0, 0, 0, 255] 2 →
      FillReach [0, 0, 0, 255, 255, 255, 255, 255, 255, 255, 255, 255, 0, 0, 0, 255]
          2 2 ⟨0, 0, 0, 255⟩ 0 ⟨0, 0⟩ p ∧
        colorsEqual
          (getPixelColorFromImageData p
            [0, 0, 0, 255, 255, 255, 255, 255, 255, 255, 255, 255, 0, 0, 0, 255] 2)
          ⟨0, 0, 0, 255⟩ 0 = true) :=
  ⟨by decide, by decide, by decide,
    claim_C7_four_connectivity
      [0, 0, 0, 255, 255, 255, 255, 255, 255, 255, 255, 255, 0, 0, 0, 255] 0 0
      ⟨0, 0, 0, 255⟩ ⟨255, 0, 0, 255⟩ 2 2 0 20
      [255, 0, 0, 255, 255, 255, 255, 255, 255, 255, 255, 255, 0, 0, 0, 255]
      ⟨0, 0, 0, 0⟩ (by decide) (by decide) (by decide) (by decide) (by decide)
      (by decide) (by decide)⟩

/-- Witness for C8 at a concrete input: a 1x1 buffer with a seed at (5, 0). -/
theorem claim_C8_witness :
    (¬ inBoundsP ⟨5, 0⟩ 1 1) ∧ 1 ≤ 1 ∧
      performFloodFill 1 [9, 8, 7, 255] 5 0 ⟨9, 8, 7, 255⟩ ⟨1, 2, 3, 255⟩ 1 1 0 =
        some ([9, 8, 7, 255], ⟨5, 5, 0, 0⟩) :=
  ⟨by decide, le_refl 1,
    claim_C8_out_of_bounds_seed [9, 8, 7, 255] 5 0 ⟨9, 8, 7, 255⟩ ⟨1, 2, 3, 255⟩ 1 1 0 1
      (by decide) (le_refl 1)⟩

end FloodFillEngine

/-- An `ImageData` snapshot: its RGBA byte array (`imageData.data`). -/
@[ext]
structure ImageData where
  data : List Nat
deriving DecidableEq, Repr

/-- The undo/redo history manager.  `currentIndex` is a JavaScript number
that starts at `-1`, so it is an integer; `memoryUsage` is maintained by
adding and subtracting snapshot sizes, so it is an integer as well. -/
@[ext]
structure HistoryManager where
  states : List ImageData
  currentIndex : Int
  maxStates : Nat
  memoryUsage : Int
  maxMemoryUsage : Nat
deriving DecidableEq, Repr

/-- The `HistoryManager` constructor (default `maxStates` is
`HISTORY_MAX_STATES = 50`; `maxMemoryUsage` is always
`HISTORY_MAX_MEMORY_MB * BYTES_PER_MB` bytes). -/
def mkHistoryManager (maxStates : Nat := HISTORY_MAX_STATES) : HistoryManager :=
  { states := []
    currentIndex := -1
    maxStates := maxStates
    memoryUsage := 0
    maxMemoryUsage := HISTORY_MAX_MEMORY_MB * BYTES_PER_MB }

namespace HistoryManager

/-- `HistoryManager.calculateImageDataSize`: `imageData.data.length`. -/
def calculateImageDataSize (imageData : ImageData) : Nat :=
  imageData.data.length

/-- The body of the `while` loop of `trimOldStates`, with fuel.  The loop
runs while more than 2 states remain and the memory limit is still
exceeded; each iteration shifts the oldest state off the head, subtracts
its size and decrements `currentIndex`. -/
def trimStatesLoop : Nat → HistoryManager → Nat → HistoryManager
  | 0, henv, _ => henv
  | n + 1, henv, requiredSize =>
    if henv.states.length > 2 ∧
        henv.memoryUsage + (requiredSize : Int) > (henv.maxMemoryUsage : Int) then
      match henv.states with
      | [] => henv
      | removedState :: rest =>
        trimStatesLoop n
          { henv with
            states := rest
            memoryUsage := henv.memoryUsage - (calculateImageDataSize removedState : Int)
            currentIndex := henv.currentIndex - 1 } requiredSize
    else henv

/-- `HistoryManager.trimOldStates`: keep at least 2 states, trim from the
head while the memory limit is exceeded.  The loop removes one state per
iteration, so `states.length` iterations of fuel always suffice. -/
def trimOldStates (henv : HistoryManager) (requiredSize : Nat) : HistoryManager :=
  trimStatesLoop henv.states.length henv requiredSize

/-- First statement block of `saveState`: handle branching history (when
the user draws after undo) by splicing off every state after
`currentIndex` and subtracting the removed sizes. -/
def pruneRedoBranch (henv : HistoryManager) : HistoryManager :=
  if henv.currentIndex < (henv.states.length : Int) - 1 then
    { henv with
      states := henv.states.take (henv.currentIndex + 1).toNat
      memoryUsage := (henv.states.drop (henv.currentIndex + 1).toNat).foldl
        (fun m s => m - (calculateImageDataSize s : Int)) henv.memoryUsage }
  else henv

/-- Second statement block of `saveState`: check the memory limit and trim
old states if necessary. -/
def trimIfNeeded (henv : HistoryManager) (stateSize : Nat) : HistoryManager :=
  if henv.memoryUsage + (stateSize : Int) > (henv.maxMemoryUsage : Int) then
    trimOldStates henv stateSize
  else henv

/-- Third statement block of `saveState`: push the new state, advance
`currentIndex`, and add its size to the running total. -/
def appendState (henv : HistoryManager) (imageData : ImageData) (stateSize : Nat) :
    HistoryManager :=
  { henv with
    states := henv.states ++ [imageData]
    currentIndex := henv.currentIndex + 1
    memoryUsage := henv.memoryUsage + (stateSize : Int) }

/-- Final statement block of `saveState`: only enforce `maxStates` if not
already memory-limited, shifting one state off the head if the effective
cap is exceeded.  When `stateSize` is zero the JavaScript division yields
`Infinity`, so the effective cap degenerates to `maxStates`. -/
def enforceEffectiveMaxStates (henv : HistoryManager) (stateSize : Nat) : HistoryManager :=
  let estimatedMaxStatesByMemory := henv.maxMemoryUsage / stateSize
  let effectiveMaxStates :=
    if stateSize = 0 then henv.maxStates
    else min henv.maxStates (max 10 estimatedMaxStatesByMemory)
  if henv.states.length > effectiveMaxStates then
    match henv.states with
    | [] => henv
    | removedState :: rest =>
      { henv with
        states := rest
        memoryUsage := henv.memoryUsage - (calculateImageDataSize removedState : Int)
        currentIndex := henv.currentIndex - 1 }
  else henv

/-- `HistoryManager.saveState`: prune the redo branch, compute the new
snapshot's size, trim for memory, append the snapshot, and enforce the
memory-derived effective state cap — the method's statement blocks in
source order. -/
def saveState (henv : HistoryManager) (imageData : ImageData) : HistoryManager :=
  let h1 := pruneRedoBranch henv
  let stateSize := calculateImageDataSize imageData
  let h2 := trimIfNeeded h1 stateSize
  let h3 := appendState h2 imageData stateSize
  enforceEffectiveMaxStates h3 stateSize

/-- `HistoryManager.canUndo`. -/
def canUndo (henv : HistoryManager) : Bool :=
  decide (henv.currentIndex > 0)

/-- `HistoryManager.canRedo`. -/
def canRedo (henv : HistoryManager) : Bool :=
  decide (henv.currentIndex < (henv.states.length : Int) - 1)

/-- `HistoryManager.isEmpty`. -/
def isEmpty (henv : HistoryManager) : Bool :=
  decide (henv.states.length = 0)

/-- JavaScript array indexing `states[i]`: `undefined` (here `none`) for a
negative or out-of-range index. -/
def jsArrayGet (states : List ImageData) (i : Int) : Option ImageData :=
  if i < 0 then none else states.get? i.toNat

/-- `HistoryManager.undo`: returns the mutated manager together with the
returned snapshot (or `none`). -/
def undo (henv : HistoryManager) : HistoryManager × Option ImageData :=
  if henv.canUndo then
    let h2 := { henv with currentIndex := henv.currentIndex - 1 }
    (h2, jsArrayGet h2.states h2.currentIndex)
  else (henv, none)

/-- `HistoryManager.redo`: returns the mutated manager together with the
returned snapshot (or `none`). -/
def redo (henv : HistoryManager) : HistoryManager × Option ImageData :=
  if henv.canRedo then
    let h2 := { henv with currentIndex := henv.currentIndex + 1 }
    (h2, jsArrayGet h2.states h2.currentIndex)
  else (henv, none)

/-- The body of the `while` loop of `forceCleanup`, with fuel: shift the
oldest state while more than `minStatesToKeep` remain. -/
def forceCleanupLoop : Nat → HistoryManager → Nat → HistoryManager
  | 0, henv, _ => henv
  | n + 1, henv, minStatesToKeep =>
    if henv.states.length > minStatesToKeep then
      match henv.states with
      | [] => henv
      | removedState :: rest =>
        forceCleanupLoop n
          { henv with
            states := rest
            memoryUsage := henv.memoryUsage - (calculateImageDataSize removedState : Int)
            currentIndex := henv.currentIndex - 1 } minStatesToKeep
    else henv

/-- `HistoryManager.forceCleanup` (from the repository's other
`HistoryManager` variant): evict from the head down to `minStatesToKeep`
states and return the mutated manager with the removed count.  The loop
removes one state per iteration, so `states.length` iterations of fuel
always suffice. -/
def forceCleanup (henv : HistoryManager) (minStatesToKeep : Nat := 3) :
    HistoryManager × Nat :=
  let initialCount := henv.states.length
  let h2 := forceCleanupLoop henv.states.length henv minStatesToKeep
  (h2, initialCount - h2.states.length)

/-- The spec's `History` invariant: `0 ≤ currentIndex < states.length`, or
`states` is empty and `currentIndex = -1`. -/
def historyInvariant (henv : HistoryManager) : Prop :=
  (0 ≤ henv.currentIndex ∧ henv.currentIndex < (henv.states.length : Int)) ∨
    (henv.states = [] ∧ henv.currentIndex = -1)

instance (henv : HistoryManager) : Decidable (historyInvariant henv) := by
  unfold historyInvariant; infer_instance

/-- C6: saving after two undos prunes the redo branch: from states
`[S0, S1, S2, S3]` with `currentIndex = 1` (memory bookkeeping consistent,
default caps, and the kept sizes fitting in the memory ceiling),
`saveState S4` yields `[S0, S1, S4]` with `currentIndex = 2` and
`canRedo` false. -/
theorem claim_C6_branch_pruning (S0 S1 S2 S3 S4 : ImageData) (henv : HistoryManager)
    (hstates : henv.states = [S0, S1, S2, S3])
    (hidx : henv.currentIndex = 1)
    (hmax : henv.maxStates = HISTORY_MAX_STATES)
    (hcap : henv.maxMemoryUsage = HISTORY_MAX_MEMORY_MB * BYTES_PER_MB)
    (hmem : henv.memoryUsage =
      (calculateImageDataSize S0 : Int) + calculateImageDataSize S1 +
        calculateImageDataSize S2 + calculateImageDataSize S3)
    (hfit : calculateImageDataSize S0 + calculateImageDataSize S1 +
        calculateImageDataSize S4 ≤ HISTORY_MAX_MEMORY_MB * BYTES_PER_MB) :
    (henv.saveState S4).states = [S0, S1, S4] ∧
      (henv.saveState S4).currentIndex = 2 ∧
      (henv.saveState S4).canRedo = false := by
  obtain ⟨states, currentIndex, maxStates, memoryUsage, maxMemoryUsage⟩ := henv
  simp only at hstates hidx hmax hcap hmem
  subst hstates hidx hmax hcap hmem
  simp only [HISTORY_MAX_STATES, HISTORY_MAX_MEMORY_MB, BYTES_PER_MB] at hfit ⊢
  norm_num at hfit ⊢
  simp only [saveState, pruneRedoBranch, trimIfNeeded, appendState,
    enforceEffectiveMaxStates, trimOldStates, canRedo]
  norm_num [List.take, List.drop, List.foldl]
  split_ifs with htrim hcapif hcapif <;> simp_all <;> omega

/-- Concrete witness manager for C6. -/
def hmC6 : HistoryManager :=
  ⟨[⟨[1]⟩, ⟨[2]⟩, ⟨[3]⟩, ⟨[4]⟩], 1, 50, 4, 524288000⟩

/-- Witness for C6 at concrete snapshots of one byte each. -/
theorem claim_C6_witness :
    hmC6.states = [⟨[1]⟩, ⟨[2]⟩, ⟨[3]⟩, ⟨[4]⟩] ∧
    calculateImageDataSize ⟨[1]⟩ + calculateImageDataSize ⟨[2]⟩ +
        calculateImageDataSize ⟨[5]⟩ ≤ HISTORY_MAX_MEMORY_MB * BYTES_PER_MB ∧
    (hmC6.saveState ⟨[5]⟩).states = [⟨[1]⟩, ⟨[2]⟩, ⟨[5]⟩] ∧
      (hmC6.saveState ⟨[5]⟩).currentIndex = 2 ∧
      (hmC6.saveState ⟨[5]⟩).canRedo = false :=
  ⟨rfl, by decide,
    claim_C6_branch_pruning ⟨[1]⟩ ⟨[2]⟩ ⟨[3]⟩ ⟨[4]⟩ ⟨[5]⟩ hmC6 rfl rfl (by decide)
      (by decide) (by decide) (by decide)⟩

/-- The "tail position" property: `currentIndex` points at the last state
(with the empty-list convention `currentIndex = -1`). -/
def tailPosition (henv : HistoryManager) : Prop :=
  henv.currentIndex = (henv.states.length : Int) - 1

lemma trimStatesLoop_tail (fuel : Nat) : ∀ (henv : HistoryManager) (req : Nat),
    tailPosition henv → tailPosition (trimStatesLoop fuel henv req) := by
  induction fuel with
  | zero => intro henv req hd; simpa [trimStatesLoop] using hd
  | succ n ih =>
    intro henv req hd
    rw [trimStatesLoop]
    split
    · rename_i hcond
      cases hstates : henv.states with
      | nil => simp [hstates] at hcond
      | cons removed rest =>
        simp only [hstates]
        apply ih
        unfold tailPosition at hd ⊢
        simp only [hstates, List.length_cons] at hd ⊢
        push_cast at hd ⊢
        omega
    · exact hd

lemma historyInvariant_of_tailPosition {henv : HistoryManager}
    (hd : tailPosition henv) : historyInvariant henv := by
  unfold tailPosition at hd
  unfold historyInvariant
  cases hstates : henv.states with
  | nil => right; simp [hstates] at hd ⊢; omega
  | cons x xs => left; simp [hstates, List.length_cons] at hd ⊢; omega

lemma pruneRedoBranch_tail (henv : HistoryManager) (hinv : historyInvariant henv) :
    tailPosition (pruneRedoBranch henv) := by
  unfold pruneRedoBranch tailPosition
  rcases hinv with ⟨h0, hlt⟩ | ⟨hempty, hidx⟩
  · split
    · rename_i hcond
      simp only [List.length_take]
      have : (henv.currentIndex + 1).toNat ≤ henv.states.length := by omega
      omega
    · rename_i hcond
      omega
  · rw [if_neg (by simp [hempty, hidx])]
    simp [hempty, hidx]

lemma trimIfNeeded_tail (henv : HistoryManager) (s : Nat) (hd : tailPosition henv) :
    tailPosition (trimIfNeeded henv s) := by
  unfold trimIfNeeded
  split
  · exact trimStatesLoop_tail _ _ _ hd
  · exact hd

lemma appendState_tail (henv : HistoryManager) (img : ImageData) (s : Nat)
    (hd : tailPosition henv) : tailPosition (appendState henv img s) := by
  unfold tailPosition at hd ⊢
  unfold appendState
  simp only [List.length_append, List.length_cons, List.length_nil]
  push_cast
  omega

lemma enforceEffectiveMaxStates_tail (henv : HistoryManager) (s : Nat)
    (hd : tailPosition henv) : tailPosition (enforceEffectiveMaxStates henv s) := by
  have hcap : ∀ cap : Nat,
      tailPosition (if henv.states.length > cap then
        match henv.states with
        | [] => henv
        | removedState :: rest =>
          { henv with
            states := rest
            memoryUsage := henv.memoryUsage - (calculateImageDataSize removedState : Int)
            currentIndex := henv.currentIndex - 1 }
      else henv) := by
    intro cap
    split
    · cases hstates : henv.states with
      | nil => simpa [hstates] using hd
      | cons removed rest =>
        unfold tailPosition at hd ⊢
        simp only [hstates, List.length_cons] at hd ⊢
        push_cast at hd ⊢
        omega
    · exact hd
  unfold enforceEffectiveMaxStates
  exact hcap _

/-- After a `saveState`, `currentIndex` always points at the tail. -/
lemma saveState_tailPosition (henv : HistoryManager) (img : ImageData)
    (hinv : historyInvariant henv) : tailPosition (henv.saveState img) := by
  unfold saveState
  exact enforceEffectiveMaxStates_tail _ _
    (appendState_tail _ _ _ (trimIfNeeded_tail _ _ (pruneRedoBranch_tail _ hinv)))

lemma undo_historyInvariant (henv : HistoryManager) (hinv : historyInvariant henv) :
    historyInvariant henv.undo.1 := by
  unfold undo canUndo
  split
  · rename_i hc
    rcases hinv with ⟨h0, hlt⟩ | ⟨hempty, hidx⟩ <;>
      simp_all [historyInvariant] <;> omega
  · exact hinv

lemma redo_historyInvariant (henv : HistoryManager) (hinv : historyInvariant henv) :
    historyInvariant henv.redo.1 := by
  unfold redo canRedo
  split
  · rename_i hc
    simp only [decide_eq_true_eq] at hc
    rcases hinv with ⟨h0, hlt⟩ | ⟨hempty, hidx⟩ <;>
      simp_all [historyInvariant] <;> omega
  · exact hinv

lemma forceCleanupLoop_historyInvariant (fuel : Nat) :
    ∀ (henv : HistoryManager) (k : Nat), historyInvariant henv →
      (henv.states.length : Int) ≤ henv.currentIndex + k →
      historyInvariant (forceCleanupLoop fuel henv k) := by
  induction fuel with
  | zero => intro henv k hinv hk; simpa [forceCleanupLoop] using hinv
  | succ n ih =>
    intro henv k hinv hk
    rw [forceCleanupLoop]
    split
    · rename_i hcond
      cases hstates : henv.states with
      | nil => simp [hstates] at hcond
      | cons removed rest =>
        simp only [hstates]
        have hlen : henv.states.length = rest.length + 1 := by simp [hstates]
        rw [hlen] at hcond hk
        rcases hinv with ⟨h0, hlt⟩ | ⟨hempty, hidx⟩
        · rw [hlen] at hlt
          apply ih
          · left
            simp only [List.length_cons]
            push_cast at hlt hk ⊢
            omega
          · simp only [List.length_cons]
            push_cast at hk ⊢
            omega
        · simp [hempty] at hstates
    · exact hinv

/-- C4 (amended): `saveState`, `undo` and `redo` preserve the history
invariant (0 ≤ currentIndex < states.length, or empty with -1)
unconditionally; `forceCleanup minToKeep` preserves it only when
`currentIndex` is far enough from the head that the eviction count
(states.length − minToKeep) cannot push it below 0, i.e. when
states.length ≤ currentIndex + minToKeep.  (Without that restriction the
claim is false: see the counterexample.) -/
theorem claim_C4_invariant_preservation :
    (∀ (henv : HistoryManager) (img : ImageData), historyInvariant henv →
      historyInvariant (henv.saveState img)) ∧
    (∀ henv : HistoryManager, historyInvariant henv →
      historyInvariant henv.undo.1) ∧
    (∀ henv : HistoryManager, historyInvariant henv →
      historyInvariant henv.redo.1) ∧
    (∀ (henv : HistoryManager) (minToKeep : Nat), historyInvariant henv →
      (henv.states.length : Int) ≤ henv.currentIndex + minToKeep →
      historyInvariant (henv.forceCleanup minToKeep).1) :=
  ⟨fun henv img hinv => historyInvariant_of_tailPosition (saveState_tailPosition henv img hinv),
    undo_historyInvariant, redo_historyInvariant,
    fun henv minToKeep hinv hk =>
      forceCleanupLoop_historyInvariant henv.states.length henv minToKeep hinv hk⟩

/-- A history state reached from a fresh manager by four saves, three
undos (so `currentIndex = 0` with four states), and then the default
`forceCleanup 3`: the eviction decrements `currentIndex` to `-1` while
three states remain. -/
def hmViolating : HistoryManager :=
  (((((((mkHistoryManager HISTORY_MAX_STATES).saveState ⟨[0]⟩).saveState
    ⟨[1]⟩).saveState ⟨[2]⟩).saveState ⟨[3]⟩).undo.1.undo.1.undo.1).forceCleanup 3).1

/-- Counterexample to C4 as stated: the reachable state `hmViolating`
(four saves, three undos, then `forceCleanup 3`) violates the invariant:
`currentIndex = -1` while `states.length = 3`. -/
theorem claim_C4_counterexample :
    ¬ historyInvariant hmViolating ∧
      hmViolating.currentIndex = -1 ∧ hmViolating.states.length = 3 := by
  refine ⟨?_, by decide, by decide⟩
  decide

/-- Witness for C4 (amended) at concrete inputs: a manager with four
states and `currentIndex` at the tail satisfies each hypothesis, and each
of the four operations preserves the invariant there. -/
theorem claim_C4_witness :
    (historyInvariant hmC6 ∧ historyInvariant (hmC6.saveState ⟨[9]⟩)) ∧
    (historyInvariant hmC6 ∧ historyInvariant hmC6.undo.1) ∧
    (historyInvariant hmC6 ∧ historyInvariant hmC6.redo.1) ∧
    (historyInvariant hmC6 ∧ ((hmC6.states.length : Int) ≤ hmC6.currentIndex + 3) ∧
      historyInvariant (hmC6.forceCleanup 3).1) :=
  ⟨⟨by decide, claim_C4_invariant_preservation.1 hmC6 ⟨[9]⟩ (by decide)⟩,
    ⟨by decide, claim_C4_invariant_preservation.2.1 hmC6 (by decide)⟩,
    ⟨by decide, claim_C4_invariant_preservation.2.2.1 hmC6 (by decide)⟩,
    ⟨by decide, by decide,
      claim_C4_invariant_preservation.2.2.2 hmC6 3 (by decide) (by decide)⟩⟩

lemma jsArrayGet_isSome {states : List ImageData} {i : Int} (h0 : 0 ≤ i)
    (hlt : i < (states.length : Int)) : (jsArrayGet states i).isSome = true := by
  unfold jsArrayGet
  rw [if_neg (by omega)]
  rw [List.get?_eq_getElem?, List.getElem?_eq_getElem (by omega)]
  rfl

/-- C10 (amended): on any manager satisfying the history invariant, if
`canUndo()` holds then `undo()` followed by `redo()` restores states and
`currentIndex` exactly, and the `redo()` call returns precisely the
snapshot that was current before the undo; symmetrically for
`redo()` followed by `undo()` when `canRedo()` holds.  (The invariant
hypothesis is needed: reachable invariant-violating states — see the C4
counterexample — break the round trip, see this claim's counterexample.) -/
theorem claim_C10_undo_redo_roundtrip (henv : HistoryManager)
    (hinv : historyInvariant henv) :
    (henv.canUndo = true →
      henv.undo.1.redo.1 = henv ∧
      henv.undo.1.redo.2 = jsArrayGet henv.states henv.currentIndex ∧
      (jsArrayGet henv.states henv.currentIndex).isSome = true) ∧
    (henv.canRedo = true →
      henv.redo.1.undo.1 = henv ∧
      henv.redo.1.undo.2 = jsArrayGet henv.states henv.currentIndex ∧
      (jsArrayGet henv.states henv.currentIndex).isSome = true) := by
  rcases hinv with ⟨h0, hlt⟩ | ⟨hempty, hidx⟩
  · constructor
    · intro hcu
      unfold canUndo at hcu
      simp only [decide_eq_true_eq] at hcu
      have hundo : henv.undo =
          ({ henv with currentIndex := henv.currentIndex - 1 },
            jsArrayGet henv.states (henv.currentIndex - 1)) := by
        unfold undo canUndo
        rw [if_pos (by simp only [decide_eq_true_eq]; exact hcu)]
      have hredo : ({ henv with currentIndex := henv.currentIndex - 1 } :
          HistoryManager).redo =
          ({ henv with currentIndex := henv.currentIndex - 1 + 1 },
            jsArrayGet henv.states (henv.currentIndex - 1 + 1)) := by
        unfold redo canRedo
        rw [if_pos (by simp only [decide_eq_true_eq]; exact
          (by omega : henv.currentIndex - 1 < (henv.states.length : Int) - 1))]
      rw [hundo]
      simp only []
      rw [hredo]
      refine ⟨?_, ?_, jsArrayGet_isSome h0 hlt⟩
      · refine HistoryManager.ext ?_ ?_ ?_ ?_ ?_ <;> simp
      · simp only []
        congr 1
        omega
    · intro hcr
      unfold canRedo at hcr
      simp only [decide_eq_true_eq] at hcr
      have hredo : henv.redo =
          ({ henv with currentIndex := henv.currentIndex + 1 },
            jsArrayGet henv.states (henv.currentIndex + 1)) := by
        unfold redo canRedo
        rw [if_pos (by simp only [decide_eq_true_eq]; exact hcr)]
      have hundo : ({ henv with currentIndex := henv.currentIndex + 1 } :
          HistoryManager).undo =
          ({ henv with currentIndex := henv.currentIndex + 1 - 1 },
            jsArrayGet henv.states (henv.currentIndex + 1 - 1)) := by
        unfold undo canUndo
        rw [if_pos (by simp only [decide_eq_true_eq]; exact
          (by omega : henv.currentIndex + 1 > 0))]
      rw [hredo]
      simp only []
      rw [hundo]
      refine ⟨?_, ?_, jsArrayGet_isSome h0 hlt⟩
      · refine HistoryManager.ext ?_ ?_ ?_ ?_ ?_ <;> simp
      · simp only []
        congr 1
        omega
  · constructor
    · intro hcu
      unfold canUndo at hcu
      rw [hidx] at hcu
      simp at hcu
    · intro hcr
      unfold canRedo at hcr
      rw [hidx, hempty] at hcr
      simp at hcr

/-- Counterexample to C10 as stated (over every manager state, including
the reachable invariant-violating one): on `hmViolating`, `canRedo()`
holds but `redo()` followed by `undo()` does not restore the state:
`currentIndex` ends at 0 instead of -1. -/
theorem claim_C10_counterexample :
    hmViolating.canRedo = true ∧ hmViolating.redo.1.undo.1 ≠ hmViolating := by
  constructor
  · decide
  · decide

/-- Witness for C10 at a concrete input: `hmC6` satisfies the invariant,
both `canUndo` and `canRedo` hold, and both round trips restore it. -/
theorem claim_C10_witness :
    historyInvariant hmC6 ∧
    (hmC6.canUndo = true →
      hmC6.undo.1.redo.1 = hmC6 ∧
      hmC6.undo.1.redo.2 = jsArrayGet hmC6.states hmC6.currentIndex ∧
      (jsArrayGet hmC6.states hmC6.currentIndex).isSome = true) ∧
    (hmC6.canRedo = true →
      hmC6.redo.1.undo.1 = hmC6 ∧
      hmC6.redo.1.undo.2 = jsArrayGet hmC6.states hmC6.currentIndex ∧
      (jsArrayGet hmC6.states hmC6.currentIndex).isSome = true) :=
  ⟨by decide, (claim_C10_undo_redo_roundtrip hmC6 (by decide)).1,
    (claim_C10_undo_redo_roundtrip hmC6 (by decide)).2⟩

/-- Total size in bytes of a list of snapshots. -/
def sumSizes (l : List ImageData) : Int :=
  (l.map (fun s => (calculateImageDataSize s : Int))).sum

lemma sumSizes_nil : sumSizes [] = 0 := rfl

lemma sumSizes_cons (a : ImageData) (l : List ImageData) :
    sumSizes (a :: l) = (calculateImageDataSize a : Int) + sumSizes l := by
  simp [sumSizes]

lemma sumSizes_append_singleton (l : List ImageData) (a : ImageData) :
    sumSizes (l ++ [a]) = sumSizes l + (calculateImageDataSize a : Int) := by
  simp [sumSizes]

lemma sumSizes_nonneg (l : List ImageData) : 0 ≤ sumSizes l := by
  apply List.sum_nonneg
  intro x hx
  simp only [List.mem_map] at hx
  obtain ⟨s, hs, rfl⟩ := hx
  positivity

/-- `trimOldStates` never removes states below 2 remaining. -/
lemma trimStatesLoop_length_floor (fuel : Nat) :
    ∀ (henv : HistoryManager) (req : Nat),
      min 2 henv.states.length ≤ (trimStatesLoop fuel henv req).states.length := by
  induction fuel with
  | zero => intro henv req; simp [trimStatesLoop]
  | succ n ih =>
    intro henv req
    rw [trimStatesLoop]
    split
    · rename_i hcond
      cases hstates : henv.states with
      | nil => simp [hstates] at hcond
      | cons removed rest =>
        simp only [hstates]
        have hlen : henv.states.length = rest.length + 1 := by simp [hstates]
        rw [hlen] at hcond
        have := ih { henv with
          states := rest
          memoryUsage := henv.memoryUsage - (calculateImageDataSize removed : Int)
          currentIndex := henv.currentIndex - 1 } req
        simp only at this
        omega
    · omega

lemma trimStatesLoop_len_le_two (fuel : Nat) (henv : HistoryManager) (req : Nat)
    (hlen : henv.states.length ≤ 2) : trimStatesLoop fuel henv req = henv := by
  cases fuel with
  | zero => rfl
  | succ n =>
    rw [trimStatesLoop]
    rw [if_neg (by omega)]

lemma trimStatesLoop_three (fuel : Nat) (henv : HistoryManager) (req : Nat)
    (a b c : ImageData) (hstates : henv.states = [a, b, c])
    (hcond : henv.memoryUsage + (req : Int) > (henv.maxMemoryUsage : Int))
    (hfuel : 1 ≤ fuel) :
    trimStatesLoop fuel henv req =
      { henv with
        states := [b, c]
        memoryUsage := henv.memoryUsage - (calculateImageDataSize a : Int)
        currentIndex := henv.currentIndex - 1 } := by
  obtain ⟨n, rfl⟩ : ∃ n, fuel = n + 1 := ⟨fuel - 1, by omega⟩
  rw [trimStatesLoop]
  rw [if_pos (by rw [hstates]; exact ⟨by simp, hcond⟩)]
  cases hstates2 : henv.states with
  | nil => rw [hstates] at hstates2; simp at hstates2
  | cons x xs =>
    rw [hstates] at hstates2
    injection hstates2 with hx hxs
    subst hx hxs
    exact trimStatesLoop_len_le_two n _ req (by simp)

lemma enforceEffectiveMaxStates_noop (henv : HistoryManager) (s : Nat)
    (h50 : henv.maxStates = HISTORY_MAX_STATES)
    (hM : henv.maxMemoryUsage = HISTORY_MAX_MEMORY_MB * BYTES_PER_MB)
    (hs : HISTORY_MAX_MEMORY_MB * BYTES_PER_MB < s)
    (hlen : henv.states.length ≤ 10) :
    enforceEffectiveMaxStates henv s = henv := by
  unfold enforceEffectiveMaxStates
  have hdiv : henv.maxMemoryUsage / s = 0 := by
    rw [hM]; exact Nat.div_eq_of_lt hs
  have hs0 : ¬ s = 0 := by
    simp only [HISTORY_MAX_MEMORY_MB, BYTES_PER_MB] at hs; omega
  simp only [hdiv, hs0, if_false, h50, HISTORY_MAX_STATES]
  rw [if_neg (by omega)]

/-- One `saveState` whose snapshot alone exceeds the memory ceiling:
characterises the lengths reached (1, 2, 3, then steady-state 3). -/
lemma saveState_big_step (henv : HistoryManager) (img : ImageData)
    (h50 : henv.maxStates = HISTORY_MAX_STATES)
    (hM : henv.maxMemoryUsage = HISTORY_MAX_MEMORY_MB * BYTES_PER_MB)
    (htail : tailPosition henv)
    (hmem : henv.memoryUsage = sumSizes henv.states)
    (hlen3 : henv.states.length ≤ 3)
    (hbig : HISTORY_MAX_MEMORY_MB * BYTES_PER_MB < calculateImageDataSize img) :
    (henv.saveState img).maxStates = HISTORY_MAX_STATES ∧
    (henv.saveState img).maxMemoryUsage = HISTORY_MAX_MEMORY_MB * BYTES_PER_MB ∧
    (henv.saveState img).memoryUsage = sumSizes (henv.saveState img).states ∧
    (henv.saveState img).states.length = min (henv.states.length + 1) 3 := by
  have hprune : pruneRedoBranch henv = henv := by
    unfold pruneRedoBranch
    unfold tailPosition at htail
    rw [if_neg (by omega)]
  have hcond : henv.memoryUsage + (calculateImageDataSize img : Int) >
      (henv.maxMemoryUsage : Int) := by
    have hnn := sumSizes_nonneg henv.states
    rw [hM, hmem]
    simp only [HISTORY_MAX_MEMORY_MB, BYTES_PER_MB] at hbig ⊢
    push_cast
    omega
  have htrimIf : trimIfNeeded henv (calculateImageDataSize img) =
      trimOldStates henv (calculateImageDataSize img) := by
    unfold trimIfNeeded; rw [if_pos hcond]
  rcases hshape : henv.states with _ | ⟨a, _ | ⟨b, _ | ⟨c, rest⟩⟩⟩
  case nil | cons.nil | cons.cons.nil =>
    have htrim : trimOldStates henv (calculateImageDataSize img) = henv := by
      unfold trimOldStates
      exact trimStatesLoop_len_le_two _ _ _ (by simp [hshape])
    have hnoop := enforceEffectiveMaxStates_noop
      (appendState henv img (calculateImageDataSize img)) (calculateImageDataSize img)
      (by simp [appendState, h50]) (by simp [appendState, hM]) hbig
      (by simp [appendState, hshape])
    simp only [saveState]
    rw [hprune, htrimIf, htrim, hnoop]
    refine ⟨by simp [appendState, h50], by simp [appendState, hM], ?_, ?_⟩
    · simp [appendState, sumSizes_append_singleton, hmem]
    · simp [appendState, hshape]
  case cons.cons.cons =>
    have hrest : rest = [] := by
      have := hlen3
      rw [hshape] at this
      simp only [List.length_cons] at this
      exact List.eq_nil_of_length_eq_zero (by omega)
    subst hrest
    have htrim : trimOldStates henv (calculateImageDataSize img) =
        { henv with
          states := [b, c]
          memoryUsage := henv.memoryUsage - (calculateImageDataSize a : Int)
          currentIndex := henv.currentIndex - 1 } := by
      unfold trimOldStates
      exact trimStatesLoop_three _ _ _ a b c hshape hcond (by simp [hshape])
    have hnoop := enforceEffectiveMaxStates_noop
      (appendState
        { henv with
          states := [b, c]
          memoryUsage := henv.memoryUsage - (calculateImageDataSize a : Int)
          currentIndex := henv.currentIndex - 1 }
        img (calculateImageDataSize img)) (calculateImageDataSize img)
      (by simp [appendState, h50]) (by simp [appendState, hM]) hbig
      (by simp [appendState])
    simp only [saveState]
    rw [hprune, htrimIf, htrim, hnoop]
    refine ⟨by simp [appendState, h50], by simp [appendState, hM], ?_, ?_⟩
    · simp only [appendState]
      rw [hmem, hshape]
      simp [sumSizes_cons, sumSizes_append_singleton, sumSizes_nil]
      ring
    · simp [appendState, hshape]

/-- Folding saves of over-ceiling snapshots from any steady state: the
retained count is `min (initial + new saves) 3`. -/
lemma foldl_saveState_big (imgs : List ImageData) :
    ∀ henv : HistoryManager,
      henv.maxStates = HISTORY_MAX_STATES →
      henv.maxMemoryUsage = HISTORY_MAX_MEMORY_MB * BYTES_PER_MB →
      tailPosition henv →
      henv.memoryUsage = sumSizes henv.states →
      henv.states.length ≤ 3 →
      (∀ img ∈ imgs, HISTORY_MAX_MEMORY_MB * BYTES_PER_MB < calculateImageDataSize img) →
      (imgs.foldl saveState henv).states.length =
        min (henv.states.length + imgs.length) 3 := by
  induction imgs with
  | nil =>
    intro henv _ _ _ _ hlen3 _
    simp only [List.foldl_nil, List.length_nil]
    omega
  | cons img rest ih =>
    intro henv h50 hM htail hmem hlen3 hbig
    have hbigimg := hbig img (by simp)
    obtain ⟨h50s, hMs, hmems, hlens⟩ :=
      saveState_big_step henv img h50 hM htail hmem hlen3 hbigimg
    have htails : tailPosition (henv.saveState img) :=
      saveState_tailPosition henv img (historyInvariant_of_tailPosition htail)
    have := ih (henv.saveState img) h50s hMs htails hmems (by omega)
      (fun i hi => hbig i (by simp [hi]))
    simp only [List.foldl_cons]
    rw [this, hlens]
    simp only [List.length_cons]
    omega

/-- A snapshot one byte larger than the whole memory ceiling. -/
def bigSnapshot : ImageData :=
  ⟨List.replicate (HISTORY_MAX_MEMORY_MB * BYTES_PER_MB + 1) 0⟩

lemma bigSnapshot_size :
    calculateImageDataSize bigSnapshot = HISTORY_MAX_MEMORY_MB * BYTES_PER_MB + 1 := by
  simp [bigSnapshot, calculateImageDataSize]

set_option maxRecDepth 4000 in
/-- Counterexample to C5 as stated: three successive saves of a snapshot
exceeding the memory ceiling leave 3 retained states, not 2 (trimming
keeps 2 before the push, and the push makes 3; the count cap of
`max 10 0 = 10` never bites). -/
theorem claim_C5_counterexample :
    (HISTORY_MAX_MEMORY_MB * BYTES_PER_MB < calculateImageDataSize bigSnapshot) ∧
    ((((mkHistoryManager HISTORY_MAX_STATES).saveState bigSnapshot).saveState
        bigSnapshot).saveState bigSnapshot).states.length = 3 ∧
    ((((mkHistoryManager HISTORY_MAX_STATES).saveState bigSnapshot).saveState
        bigSnapshot).saveState bigSnapshot).states.length ≠ 2 := by
  have hbig : HISTORY_MAX_MEMORY_MB * BYTES_PER_MB < calculateImageDataSize bigSnapshot := by
    rw [bigSnapshot_size]; omega
  have hlen :
      ([bigSnapshot, bigSnapshot, bigSnapshot].foldl saveState
        (mkHistoryManager HISTORY_MAX_STATES)).states.length = 3 := by
    rw [foldl_saveState_big [bigSnapshot, bigSnapshot, bigSnapshot]
      (mkHistoryManager HISTORY_MAX_STATES) rfl rfl (by simp [mkHistoryManager, tailPosition])
      rfl (by simp [mkHistoryManager])
      (fun i hi => by
        simp only [List.mem_cons, List.not_mem_nil, or_false] at hi
        rcases hi with rfl | rfl | rfl <;> exact hbig)]
    simp [mkHistoryManager]
  rw [List.foldl_cons, List.foldl_cons, List.foldl_cons, List.foldl_nil] at hlen
  exact ⟨hbig, hlen, by rw [hlen]; omega⟩

/-- C5 (amended): a sequence of saves in which every snapshot alone
exceeds the memory ceiling raises no error and degenerates to retaining
`min (number of saves) 3` states — 1 after the first save, 2 after the
second, and exactly 3 (not 2) after every further save; eviction itself
(`trimOldStates`) never removes states below 2 remaining. -/
theorem claim_C5_oversized_snapshot_degradation :
    (∀ imgs : List ImageData,
      (∀ img ∈ imgs, HISTORY_MAX_MEMORY_MB * BYTES_PER_MB < calculateImageDataSize img) →
      (imgs.foldl saveState (mkHistoryManager HISTORY_MAX_STATES)).states.length =
        min imgs.length 3) ∧
    (∀ (henv : HistoryManager) (req : Nat),
      min 2 henv.states.length ≤ (trimOldStates henv req).states.length) := by
  constructor
  · intro imgs hbig
    rw [foldl_saveState_big imgs (mkHistoryManager HISTORY_MAX_STATES) rfl rfl
      (by simp [mkHistoryManager, tailPosition]) rfl (by simp [mkHistoryManager]) hbig]
    simp [mkHistoryManager]
  · intro henv req
    unfold trimOldStates
    exact trimStatesLoop_length_floor henv.states.length henv req

/-- Witness for C5 (amended) at a concrete input: one over-ceiling save
retains one state; trimming a 4-state manager keeps at least 2. -/
theorem claim_C5_witness :
    (∀ img ∈ [bigSnapshot],
      HISTORY_MAX_MEMORY_MB * BYTES_PER_MB < calculateImageDataSize img) ∧
    ([bigSnapshot].foldl saveState (mkHistoryManager HISTORY_MAX_STATES)).states.length =
      min [bigSnapshot].length 3 ∧
    min 2 hmC6.states.length ≤ (hmC6.trimOldStates 1).states.length :=
  ⟨fun img hi => by
      simp only [List.mem_singleton] at hi
      rw [hi, bigSnapshot_size]; omega,
    claim_C5_oversized_snapshot_degradation.1 [bigSnapshot]
      (fun img hi => by
        simp only [List.mem_singleton] at hi
        rw [hi, bigSnapshot_size]; omega),
    claim_C5_oversized_snapshot_degradation.2 hmC6 1⟩

end HistoryManager

end Draw
